import Mathlib

/-!
# Dodecahedron mesh construction and normal generation (`src/ofApp.cpp`)

A shallow embedding of the two geometry helpers of `ofApp.cpp`,
`addDodecahedronFaces` and `calculateNormals`, of the hardcoded input
`dodecahedronVertices` / `dodecahedronFaces`, and of the part of
`ofApp::setup` that builds the mesh.

Modelling decisions.

* `glm::vec3` is a triple over a scalar type `K`.  The helpers are generic in
  `K` and in the function `inversesqrt : K → K` used by `glm::normalize`, so
  the structural theorems hold for whatever arithmetic the scalars carry
  (no algebraic law is assumed for them).  Statements about lengths of
  vectors are made in two instances.  For the hardcoded solid, where no
  vector that is normalized is the zero vector, `K = ℝ` with
  `inversesqrt x = (√x)⁻¹`.  For arbitrary meshes, `K = Scalar fl`: a real
  number or NaN, every operation rounded by `fl`, and `inversesqrt` not a real
  number at 0, so that normalizing the zero vector gives NaN as in the source;
  `fl x = x` is real arithmetic, and a `fl` with a relative error of at most
  `2^-24` stands for `float` as long as nothing overflows or underflows.
* `ofMesh` is reduced to the three containers the helpers touch: vertices,
  indices and normals.  An index is a natural number, in a face (`int`), in
  the index list (`ofIndexType`, an unsigned type) and in the locals
  `index0..index2` (`int`): the conversions between these types keep the
  value of an index that all of them can hold, and no wrap-around of a
  negative or oversized value is modelled.  The loop counter `i` is a natural
  number as well; `i + 2` and `i += 3` do not wrap.
* A container access outside its range is undefined behaviour in the source.
  Here every access is checked and the helper returns `none` when one is out
  of range (or when the loop fuel runs out), so `calculateNormals m = some _`
  says that the run performed no such access and ended.
* `ofLogError` / `ofLogNotice` only write to the log and are left out.
-/

/-! ## glm -/

/-- The type `glm::vec3`, over the scalar type `K`. -/
structure vec3 (K : Type) where
  x : K
  y : K
  z : K
deriving DecidableEq, Repr

namespace vec3

variable {K : Type}

/-- Componentwise image of a vector under a map of scalars. -/
def map {L : Type} (f : K → L) (v : vec3 K) : vec3 L := ⟨f v.x, f v.y, f v.z⟩

/-- The vector `glm::vec3(0.0f, 0.0f, 0.0f)`. -/
def zero [Zero K] : vec3 K := ⟨0, 0, 0⟩

/-- The operator `+` of `glm::vec3` (also behind `+=`). -/
def add [Add K] (a b : vec3 K) : vec3 K := ⟨a.x + b.x, a.y + b.y, a.z + b.z⟩

/-- The operator `-` of `glm::vec3`. -/
def sub [Sub K] (a b : vec3 K) : vec3 K := ⟨a.x - b.x, a.y - b.y, a.z - b.z⟩

/-- The operator `*` of `glm::vec3` with a scalar on the right (also behind `*=`). -/
def scale [Mul K] (a : vec3 K) (s : K) : vec3 K := ⟨a.x * s, a.y * s, a.z * s⟩

instance [Zero K] : Zero (vec3 K) := ⟨zero⟩
instance [Add K] : Add (vec3 K) := ⟨add⟩
instance [Sub K] : Sub (vec3 K) := ⟨sub⟩

end vec3

namespace glm

variable {K : Type}

/-- The function `glm::cross`. -/
def cross [Mul K] [Sub K] (a b : vec3 K) : vec3 K :=
  ⟨a.y * b.z - b.y * a.z, a.z * b.x - b.z * a.x, a.x * b.y - b.x * a.y⟩

/-- The function `glm::dot`: the components of `a * b` summed left to right. -/
def dot [Mul K] [Add K] (a b : vec3 K) : K := a.x * b.x + a.y * b.y + a.z * b.z

/-- The function `glm::normalize`: `v * inversesqrt(dot(v, v))`. -/
def normalize [Mul K] [Add K] (inversesqrt : K → K) (v : vec3 K) : vec3 K :=
  v.scale (inversesqrt (dot v v))

end glm

/-! ## ofMesh -/

/-- The containers of an `ofMesh` that the helpers read or write. -/
structure ofMesh (K : Type) where
  vertices : List (vec3 K)
  indices : List Nat
  normals : List (vec3 K)
deriving DecidableEq, Repr

namespace ofMesh

variable {K : Type}

/-- A default-constructed `ofMesh`. -/
def empty : ofMesh K := ⟨[], [], []⟩

/-- The method `ofMesh::addVertices`. -/
def addVertices (mesh : ofMesh K) (verts : List (vec3 K)) : ofMesh K :=
  { mesh with vertices := mesh.vertices ++ verts }

/-- The method `ofMesh::addIndex`. -/
def addIndex (mesh : ofMesh K) (i : Nat) : ofMesh K :=
  { mesh with indices := mesh.indices ++ [i] }

/-- The method `ofMesh::clearNormals`. -/
def clearNormals (mesh : ofMesh K) : ofMesh K :=
  { mesh with normals := [] }

/-- The method `ofMesh::addNormals`. -/
def addNormals (mesh : ofMesh K) (norms : List (vec3 K)) : ofMesh K :=
  { mesh with normals := mesh.normals ++ norms }

/-- The same mesh with every scalar sent through `f`. -/
def map {L : Type} (f : K → L) (mesh : ofMesh K) : ofMesh L :=
  ⟨mesh.vertices.map (vec3.map f), mesh.indices, mesh.normals.map (vec3.map f)⟩

end ofMesh

/-! ## Scalars: real numbers, rounding and NaN -/

/-- A `float` as the normal calculation sees it: a real number, or `nan` for a
value that is not a real number (the `float` NaN; an infinity only arises as
`1/sqrt(0)` inside `glm::normalize`, where it is multiplied with the zero
components of the vector and becomes NaN).  The parameter `fl` is the
rounding applied to the exact result of every operation; `fl x = x` is real
arithmetic. -/
inductive Scalar (fl : ℝ → ℝ) where
  | nan : Scalar fl
  | real (r : ℝ) : Scalar fl

namespace Scalar

variable {fl : ℝ → ℝ}

/-- A binary `float` operation: the exact operation `op`, then rounding; an
operand that is not a real number gives a result that is not one. -/
def binary (op : ℝ → ℝ → ℝ) : Scalar fl → Scalar fl → Scalar fl
  | real a, real b => real (fl (op a b))
  | _, _ => nan

instance : Zero (Scalar fl) := ⟨real 0⟩
instance : Add (Scalar fl) := ⟨binary (fun a b => a + b)⟩
instance : Sub (Scalar fl) := ⟨binary (fun a b => a - b)⟩
instance : Mul (Scalar fl) := ⟨binary (fun a b => a * b)⟩

/-- The function `glm::inversesqrt`, `1 / sqrt(x)`, each of the two operations
rounded: a real number where `positive x` holds, not a real number elsewhere
(`1/sqrt(0)` is an infinity, the square root of a negative number or of NaN is
NaN).  It is used with `positive x = decide (0 < x)`, `sqrt = Real.sqrt` and
`inv x = 1 / x`. -/
def inversesqrt (positive : ℝ → Bool) (sqrt inv : ℝ → ℝ) : Scalar fl → Scalar fl
  | real r => if positive r then real (fl (inv (fl (sqrt r)))) else nan
  | nan => nan

end Scalar

/-! ## addDodecahedronFaces (ofApp.cpp, lines 97-116) -/

/-- The body of the `for` loop of `addDodecahedronFaces` for one face:
`face.size() == 5` is the match on five entries; any other face only logs. -/
def addFace {K : Type} (mesh : ofMesh K) (face : List Nat) : ofMesh K :=
  match face with
  | [f0, f1, f2, f3, f4] =>
    let mesh := mesh.addIndex f0
    let mesh := mesh.addIndex f1
    let mesh := mesh.addIndex f2
    let mesh := mesh.addIndex f0
    let mesh := mesh.addIndex f2
    let mesh := mesh.addIndex f3
    let mesh := mesh.addIndex f0
    let mesh := mesh.addIndex f3
    let mesh := mesh.addIndex f4
    mesh
  | _ => mesh

/-- The function `addDodecahedronFaces`: the faces are visited in order. -/
def addDodecahedronFaces {K : Type} (mesh : ofMesh K) (faces : List (List Nat)) : ofMesh K :=
  faces.foldl addFace mesh

/-! ## calculateNormals (ofApp.cpp, lines 6-45) -/

/-- The statement `normals[i] += v` on the local `std::vector` of accumulators. -/
def addAt {K : Type} [Add K] (normals : List (vec3 K)) (i : Nat) (v : vec3 K) :
    Option (List (vec3 K)) :=
  match normals[i]? with
  | some a => some (normals.set i (a + v))
  | none => none

/-- The first `for` loop of `calculateNormals`, from loop counter `i` on, with
the accumulators `normals`.  Each iteration ends with `i += 3`, also after a
`continue`.  The first argument is the fuel: one unit per iteration. -/
def calculateNormalsLoop {K : Type} [Add K] [Sub K] [Mul K] (inversesqrt : K → K)
    (mesh : ofMesh K) : Nat → Nat → List (vec3 K) → Option (List (vec3 K))
  | 0, i, normals => if i < mesh.indices.length then none else some normals
  | fuel + 1, i, normals =>
    if i < mesh.indices.length then
      if i + 2 ≥ mesh.indices.length then
        calculateNormalsLoop inversesqrt mesh fuel (i + 3) normals
      else
        match mesh.indices[i]?, mesh.indices[i + 1]?, mesh.indices[i + 2]? with
        | some index0, some index1, some index2 =>
          if index0 ≥ mesh.vertices.length ∨ index1 ≥ mesh.vertices.length ∨
              index2 ≥ mesh.vertices.length then
            calculateNormalsLoop inversesqrt mesh fuel (i + 3) normals
          else
            match mesh.vertices[index0]?, mesh.vertices[index1]?, mesh.vertices[index2]? with
            | some v0, some v1, some v2 =>
              let edge1 := v1 - v0
              let edge2 := v2 - v0
              let faceNormal := glm.normalize inversesqrt (glm.cross edge1 edge2)
              match addAt normals index0 faceNormal with
              | none => none
              | some normals =>
                match addAt normals index1 faceNormal with
                | none => none
                | some normals =>
                  match addAt normals index2 faceNormal with
                  | none => none
                  | some normals =>
                    calculateNormalsLoop inversesqrt mesh fuel (i + 3) normals
            | _, _, _ => none
        | _, _, _ => none
    else some normals

/-- The function `calculateNormals`.  The accumulators start as one zero vector
per vertex; the loop gets one unit of fuel per index, which is more than the
number of its iterations; the second loop normalizes every accumulator; the
normals of the mesh are cleared and the accumulators appended. -/
def calculateNormals {K : Type} [Zero K] [Add K] [Sub K] [Mul K] (inversesqrt : K → K)
    (mesh : ofMesh K) : Option (ofMesh K) :=
  let normals : List (vec3 K) := List.replicate mesh.vertices.length 0
  match calculateNormalsLoop inversesqrt mesh mesh.indices.length 0 normals with
  | none => none
  | some normals =>
    let normals := normals.map (glm.normalize inversesqrt)
    some ((mesh.clearNormals).addNormals normals)

/-- The function `scaleMesh`. -/
def scaleMesh {K : Type} [Mul K] (mesh : ofMesh K) (scaleFactor : K) : ofMesh K :=
  { mesh with vertices := mesh.vertices.map (fun vertex => vertex.scale scaleFactor) }

/-! ## The hardcoded solid (ofApp.cpp, lines 57-93) and setup (lines 151-164) -/

/-- The global `dodecahedronVertices`, the literals read as decimal fractions. -/
def dodecahedronVertices : List (vec3 ℚ) := [
  ⟨0, 0.618, 1.618⟩,
  ⟨0, -0.618, 1.618⟩,
  ⟨0, -0.618, -1.618⟩,
  ⟨0, 0.618, -1.618⟩,
  ⟨1.618, 0, 0.618⟩,
  ⟨-1.618, 0, 0.618⟩,
  ⟨-1.618, 0, -0.618⟩,
  ⟨1.618, 0, -0.618⟩,
  ⟨0.618, 1.618, 0⟩,
  ⟨-0.618, 1.618, 0⟩,
  ⟨-0.618, -1.618, 0⟩,
  ⟨0.618, -1.618, 0⟩,
  ⟨1, 1, 1⟩,
  ⟨-1, 1, 1⟩,
  ⟨-1, -1, 1⟩,
  ⟨1, -1, 1⟩,
  ⟨1, -1, -1⟩,
  ⟨1, 1, -1⟩,
  ⟨-1, 1, -1⟩,
  ⟨-1, -1, -1⟩]

/-- The global `dodecahedronFaces`. -/
def dodecahedronFaces : List (List Nat) := [
  [0, 1, 15, 4, 12],
  [0, 12, 8, 9, 13],
  [0, 13, 5, 14, 1],
  [1, 14, 10, 11, 15],
  [2, 3, 17, 7, 16],
  [2, 16, 11, 10, 19],
  [2, 19, 6, 18, 3],
  [18, 9, 8, 17, 3],
  [15, 11, 16, 7, 4],
  [4, 7, 17, 8, 12],
  [13, 9, 18, 6, 5],
  [5, 6, 19, 10, 14]]

/-- The mesh part of `ofApp::setup` up to `setMode` (lines 151-158): the member
`dodecahedron` starts empty, receives the vertices and then the faces.
`ofLiteral` reads a decimal literal in the scalar type. -/
def setupBuild {K : Type} (ofLiteral : ℚ → K) : ofMesh K :=
  addDodecahedronFaces
    (ofMesh.empty.addVertices (dodecahedronVertices.map (vec3.map ofLiteral)))
    dodecahedronFaces

/-- The mesh part of `ofApp::setup` (lines 151-164): build the mesh, calculate
the normals, scale by `100.0f`. -/
def setup {K : Type} [Zero K] [Add K] [Sub K] [Mul K] (ofLiteral : ℚ → K)
    (inversesqrt : K → K) : Option (ofMesh K) :=
  match calculateNormals inversesqrt (setupBuild ofLiteral) with
  | none => none
  | some dodecahedron => some (scaleMesh dodecahedron (ofLiteral 100))

/-! ## Specification-side definitions -/

/-- The complete triangles of a flat index list, in order: consecutive triples
from the start; one or two trailing indices form no triangle. -/
def triangles : List Nat → List (Nat × Nat × Nat)
  | i0 :: i1 :: i2 :: rest => (i0, i1, i2) :: triangles rest
  | _ => []

/-- The triangle fan of a pentagon `[v0,v1,v2,v3,v4]` anchored at `v0`, as
nine indices: `v0,v1,v2, v0,v2,v3, v0,v3,v4`. -/
def triangleFan (face : List Nat) : List Nat :=
  [face.getD 0 0, face.getD 1 0, face.getD 2 0,
   face.getD 0 0, face.getD 2 0, face.getD 3 0,
   face.getD 0 0, face.getD 3 0, face.getD 4 0]

/-- The faces of exactly five indices, in face-list order. -/
def pentagons (faces : List (List Nat)) : List (List Nat) :=
  faces.filter (fun face => face.length = 5)

/-- The indices the Mesh Builder is specified to append: the fans of the
pentagons, in face-list order. -/
def fanIndices (faces : List (List Nat)) : List Nat :=
  (pentagons faces).flatMap triangleFan

/-! ## Normal Calculator: specification-side definitions -/

/-- Whether the three indices of a triangle are all below `n`. -/
def inRange (n : Nat) (t : Nat × Nat × Nat) : Bool :=
  decide (t.1 < n) && decide (t.2.1 < n) && decide (t.2.2 < n)

/-- The cross product of the two edges of the triangle `(i0,i1,i2)` at `i0`:
`cross(V[i1]-V[i0], V[i2]-V[i0])`. -/
def edgeCross {K : Type} [Zero K] [Sub K] [Mul K] (V : List (vec3 K))
    (t : Nat × Nat × Nat) : vec3 K :=
  glm.cross (V.getD t.2.1 0 - V.getD t.1 0) (V.getD t.2.2 0 - V.getD t.1 0)

/-- The face normal of the triangle `(i0,i1,i2)`:
`normalize(cross(V[i1]-V[i0], V[i2]-V[i0]))`. -/
def faceNormal {K : Type} [Zero K] [Add K] [Sub K] [Mul K] (inversesqrt : K → K)
    (V : List (vec3 K)) (t : Nat × Nat × Nat) : vec3 K :=
  glm.normalize inversesqrt (edgeCross V t)

/-- What one triangle contributes to vertex `v`: its face normal once for each
of the positions `i0`, `i1`, `i2` that equals `v`. -/
def triangleContribution {K : Type} (fn : vec3 K) (t : Nat × Nat × Nat) (v : Nat) :
    List (vec3 K) :=
  (if t.1 = v then [fn] else []) ++ (if t.2.1 = v then [fn] else []) ++
    (if t.2.2 = v then [fn] else [])

/-- The face normals that reach vertex `v`, in index-list order: those of the
complete triangles whose three indices are all below the vertex count. -/
def contributions {K : Type} [Zero K] [Add K] [Sub K] [Mul K] (inversesqrt : K → K)
    (V : List (vec3 K)) (indices : List Nat) (v : Nat) : List (vec3 K) :=
  ((triangles indices).filter (inRange V.length)).flatMap
    (fun t => triangleContribution (faceNormal inversesqrt V t) t v)

/-- The unweighted sum of the face normals that reach vertex `v`, added one
after the other to the zero vector. -/
def accumulated {K : Type} [Zero K] [Add K] [Sub K] [Mul K] (inversesqrt : K → K)
    (V : List (vec3 K)) (indices : List Nat) (v : Nat) : vec3 K :=
  (contributions inversesqrt V indices v).foldl (fun s fn => s + fn) 0

/-- The specified normal of vertex `v`: the accumulated sum, normalized. -/
def vertexNormal {K : Type} [Zero K] [Add K] [Sub K] [Mul K] (inversesqrt : K → K)
    (V : List (vec3 K)) (indices : List Nat) (v : Nat) : vec3 K :=
  glm.normalize inversesqrt (accumulated inversesqrt V indices v)

/-- Whether `v` is one of the three indices of the triangle `t`. -/
def touches (t : Nat × Nat × Nat) (v : Nat) : Bool :=
  decide (t.1 = v) || decide (t.2.1 = v) || decide (t.2.2 = v)

/-- Vertex `v` is an index of at least one non-degenerate triangle: a complete
triangle with all indices below the vertex count whose edge cross product is
not the zero vector. -/
def touchesNonDegenerate {K : Type} [Zero K] [Sub K] [Mul K] (V : List (vec3 K))
    (indices : List Nat) (v : Nat) : Prop :=
  ∃ t ∈ (triangles indices).filter (inRange V.length),
    touches t v = true ∧ edgeCross V t ≠ 0

/-- A vector of real numbers has magnitude 1. -/
def unitLength (v : vec3 ℝ) : Prop := Real.sqrt (glm.dot v v) = 1

/-- One triangle listed twice, the second time with the opposite winding. -/
def cancellingMesh : ofMesh ℝ :=
  ⟨[⟨0, 0, 0⟩, ⟨1, 0, 0⟩, ⟨0, 1, 0⟩], [0, 1, 2, 0, 2, 1], []⟩

/-- A single triangle in the plane `z = 0`. -/
def singleTriangleMesh : ofMesh ℝ :=
  ⟨[⟨0, 0, 0⟩, ⟨1, 0, 0⟩, ⟨0, 1, 0⟩], [0, 1, 2], []⟩

/-- One good triangle, `(0,1,2)`, and the zero-area triangle `(0,1,3)`. -/
def degenerateNeighbourMesh : ofMesh ℝ :=
  ⟨[⟨0, 0, 0⟩, ⟨1, 0, 0⟩, ⟨0, 1, 0⟩, ⟨2, 0, 0⟩], [0, 1, 2, 0, 1, 3], []⟩

/-! ## Proof-side definitions -/

/-- The hardcoded vertices in thousandths. -/
def milliVertices : List (vec3 ℤ) := [
  ⟨0, 618, 1618⟩,
  ⟨0, -618, 1618⟩,
  ⟨0, -618, -1618⟩,
  ⟨0, 618, -1618⟩,
  ⟨1618, 0, 618⟩,
  ⟨-1618, 0, 618⟩,
  ⟨-1618, 0, -618⟩,
  ⟨1618, 0, -618⟩,
  ⟨618, 1618, 0⟩,
  ⟨-618, 1618, 0⟩,
  ⟨-618, -1618, 0⟩,
  ⟨618, -1618, 0⟩,
  ⟨1000, 1000, 1000⟩,
  ⟨-1000, 1000, 1000⟩,
  ⟨-1000, -1000, 1000⟩,
  ⟨1000, -1000, 1000⟩,
  ⟨1000, -1000, -1000⟩,
  ⟨1000, 1000, -1000⟩,
  ⟨-1000, 1000, -1000⟩,
  ⟨-1000, -1000, -1000⟩]

/-- The statement `normals[i] += v` when `i` is in range. -/
def bump {K : Type} [Zero K] [Add K] (acc : List (vec3 K)) (i : Nat) (v : vec3 K) :
    List (vec3 K) :=
  acc.set i (acc.getD i 0 + v)

/-- The effect of one loop iteration on a complete triangle. -/
def stepTriangle {K : Type} [Zero K] [Add K] [Sub K] [Mul K] (inversesqrt : K → K)
    (V : List (vec3 K)) (acc : List (vec3 K)) (t : Nat × Nat × Nat) : List (vec3 K) :=
  if inRange V.length t then
    bump (bump (bump acc t.1 (faceNormal inversesqrt V t)) t.2.1 (faceNormal inversesqrt V t))
      t.2.2 (faceNormal inversesqrt V t)
  else acc

/-! ## Mesh Builder: lemmas -/

theorem addFace_eq {K : Type} (mesh : ofMesh K) (face : List Nat) :
    addFace mesh face =
      { mesh with indices := mesh.indices ++ (if face.length = 5 then triangleFan face else []) } := by
  rcases face with _ | ⟨a, _ | ⟨b, _ | ⟨c, _ | ⟨d, _ | ⟨e, _ | ⟨f, t⟩⟩⟩⟩⟩⟩ <;>
    simp [addFace, triangleFan, ofMesh.addIndex]

theorem fanIndices_nil : fanIndices [] = [] := rfl

theorem fanIndices_cons (face : List Nat) (faces : List (List Nat)) :
    fanIndices (face :: faces) =
      (if face.length = 5 then triangleFan face else []) ++ fanIndices faces := by
  by_cases h : face.length = 5 <;> simp [fanIndices, pentagons, List.filter_cons, h]

theorem fanIndices_append (xs ys : List (List Nat)) :
    fanIndices (xs ++ ys) = fanIndices xs ++ fanIndices ys := by
  simp [fanIndices, pentagons]

theorem addDodecahedronFaces_eq {K : Type} (mesh : ofMesh K) (faces : List (List Nat)) :
    addDodecahedronFaces mesh faces =
      { mesh with indices := mesh.indices ++ fanIndices faces } := by
  induction faces generalizing mesh with
  | nil => simp [addDodecahedronFaces, fanIndices_nil]
  | cons face faces ih =>
    have h := ih (addFace mesh face)
    simp only [addDodecahedronFaces, List.foldl_cons] at h ⊢
    rw [h, addFace_eq, fanIndices_cons]
    simp

theorem triangleFan_length (face : List Nat) : (triangleFan face).length = 9 := rfl

theorem fanIndices_length (faces : List (List Nat)) :
    (fanIndices faces).length = 9 * faces.countP (fun face => face.length = 5) := by
  induction faces with
  | nil => rfl
  | cons face faces ih =>
    rw [fanIndices_cons, List.length_append, ih, List.countP_cons]
    by_cases h : face.length = 5
    · simp [h, triangleFan_length]; omega
    · simp [h]

theorem triangles_triangleFan_append (face : List Nat) (rest : List Nat) :
    triangles (triangleFan face ++ rest) =
      (face.getD 0 0, face.getD 1 0, face.getD 2 0) ::
      (face.getD 0 0, face.getD 2 0, face.getD 3 0) ::
      (face.getD 0 0, face.getD 3 0, face.getD 4 0) :: triangles rest := by
  simp [triangleFan, triangles]

theorem triangles_fanIndices_length (faces : List (List Nat)) :
    (triangles (fanIndices faces)).length = 3 * faces.countP (fun face => face.length = 5) := by
  induction faces with
  | nil => rfl
  | cons face faces ih =>
    rw [fanIndices_cons, List.countP_cons]
    by_cases h : face.length = 5
    · simp only [h, if_true, triangles_triangleFan_append, List.length_cons, ih]
      simp; omega
    · simp [h, ih]

theorem mem_triangleFan (face : List Nat) (h : face.length = 5) (i : Nat) :
    i ∈ triangleFan face ↔ i ∈ face := by
  rcases face with _ | ⟨a, _ | ⟨b, _ | ⟨c, _ | ⟨d, _ | ⟨e, _ | ⟨f, t⟩⟩⟩⟩⟩⟩ <;>
    simp at h
  simp [triangleFan]
  tauto

theorem mem_fanIndices (faces : List (List Nat)) (i : Nat) :
    i ∈ fanIndices faces ↔ ∃ face ∈ faces, face.length = 5 ∧ i ∈ face := by
  simp only [fanIndices, pentagons, List.mem_flatMap, List.mem_filter, decide_eq_true_eq]
  constructor
  · rintro ⟨face, ⟨hf, h5⟩, hi⟩
    exact ⟨face, hf, h5, (mem_triangleFan face h5 i).1 hi⟩
  · rintro ⟨face, hf, h5, hi⟩
    exact ⟨face, ⟨hf, h5⟩, (mem_triangleFan face h5 i).2 hi⟩

/-! ## Mesh Builder: claims -/

/-- C1: for every mesh and every list of faces, `addDodecahedronFaces` leaves
the mesh unchanged except for the index list, which becomes the previous index
list followed by the fan `v0,v1,v2, v0,v2,v3, v0,v3,v4` of each face of exactly
five indices, in face-list order, and nothing else. -/
theorem C1_addDodecahedronFaces_appends_fans {K : Type} (mesh : ofMesh K)
    (faces : List (List Nat)) :
    addDodecahedronFaces mesh faces =
      { mesh with indices := (mesh.indices ++
          (faces.filter (fun face => face.length = 5)).flatMap
            (fun face => [face.getD 0 0, face.getD 1 0, face.getD 2 0,
                          face.getD 0 0, face.getD 2 0, face.getD 3 0,
                          face.getD 0 0, face.getD 3 0, face.getD 4 0])) } :=
  addDodecahedronFaces_eq mesh faces

/-- C2: on a mesh with an empty index list, `addDodecahedronFaces` produces
nine indices, that is three complete triangles, per face of exactly five
indices; a face of any other length contributes nothing and the faces around
it are triangulated as if it were absent. -/
theorem C2_triangle_count {K : Type} (mesh : ofMesh K) (faces : List (List Nat))
    (hempty : mesh.indices = []) :
    (addDodecahedronFaces mesh faces).indices.length
        = 9 * faces.countP (fun face => face.length = 5)
    ∧ (triangles (addDodecahedronFaces mesh faces).indices).length
        = 3 * faces.countP (fun face => face.length = 5)
    ∧ ∀ (before after : List (List Nat)) (bad : List Nat),
        faces = before ++ bad :: after → bad.length ≠ 5 →
        addDodecahedronFaces mesh faces = addDodecahedronFaces mesh (before ++ after) := by
  refine ⟨?_, ?_, ?_⟩
  · rw [addDodecahedronFaces_eq]; simp [hempty, fanIndices_length]
  · rw [addDodecahedronFaces_eq]; simp [hempty, triangles_fanIndices_length]
  · intro before after bad hf hbad
    rw [addDodecahedronFaces_eq, addDodecahedronFaces_eq, hf, fanIndices_append,
      fanIndices_append, fanIndices_cons]
    simp [hbad]

/-- Witness for C2: a quadrilateral, a pentagon, a hexagon and a second
pentagon give 18 indices, 6 triangles. -/
theorem C2_triangle_count_witness :
    (addDodecahedronFaces (ofMesh.empty : ofMesh Int)
        [[0, 1, 2, 3], [0, 1, 2, 3, 4], [0, 1, 2, 3, 4, 5], [4, 3, 2, 1, 0]]).indices
      = [0, 1, 2, 0, 2, 3, 0, 3, 4, 4, 3, 2, 4, 2, 1, 4, 1, 0]
    ∧ (addDodecahedronFaces (ofMesh.empty : ofMesh Int)
        [[0, 1, 2, 3], [0, 1, 2, 3, 4], [0, 1, 2, 3, 4, 5], [4, 3, 2, 1, 0]]).indices.length
      = 9 * 2 :=
  ⟨by decide,
   (C2_triangle_count (ofMesh.empty : ofMesh Int)
      [[0, 1, 2, 3], [0, 1, 2, 3, 4], [0, 1, 2, 3, 4, 5], [4, 3, 2, 1, 0]] rfl).1⟩

set_option maxRecDepth 100000 in
/-- C3: building the mesh as `setup` does from the hardcoded vertices and
faces gives 20 vertices and 108 indices, that is 36 triangles; each of the 12
faces has five indices, so none is skipped; every index is below 20.  This
holds whatever the scalar type and its reading of the literals. -/
theorem C3_setup_counts {K : Type} (ofLiteral : ℚ → K) :
    (setupBuild ofLiteral).vertices.length = 20
    ∧ (setupBuild ofLiteral).indices.length = 108
    ∧ (triangles (setupBuild ofLiteral).indices).length = 36
    ∧ dodecahedronFaces.length = 12
    ∧ (∀ face ∈ dodecahedronFaces, face.length = 5)
    ∧ (∀ i ∈ (setupBuild ofLiteral).indices, i < 20) := by
  have hv : (setupBuild ofLiteral).vertices.length = 20 := by
    simp [setupBuild, addDodecahedronFaces_eq, ofMesh.addVertices, ofMesh.empty,
      dodecahedronVertices]
  have hi : (setupBuild ofLiteral).indices = fanIndices dodecahedronFaces := by
    simp [setupBuild, addDodecahedronFaces_eq, ofMesh.addVertices, ofMesh.empty]
  rw [hi]
  exact ⟨hv, by decide, by decide, by decide, by decide, by decide⟩

/-- C10, as stated, fails: with a single vertex, the five-index face
`[0,0,0,0,1]` references index 1, which is not below the vertex count 1; the
face is triangulated all the same and index 1 ends up in the mesh. -/
theorem C10_counterexample :
    (ofMesh.empty.addVertices [(⟨0, 0, 0⟩ : vec3 Int)]).vertices.length = 1
    ∧ (addDodecahedronFaces (ofMesh.empty.addVertices [(⟨0, 0, 0⟩ : vec3 Int)])
        [[0, 0, 0, 0, 1]]).indices = [0, 0, 0, 0, 0, 0, 0, 0, 1]
    ∧ ¬ (∀ i ∈ (addDodecahedronFaces (ofMesh.empty.addVertices [(⟨0, 0, 0⟩ : vec3 Int)])
        [[0, 0, 0, 0, 1]]).indices,
          i < (ofMesh.empty.addVertices [(⟨0, 0, 0⟩ : vec3 Int)]).vertices.length) := by
  decide

/-- C10, amended: `addDodecahedronFaces` does not compare face indices with
the vertex count and leaves the vertices alone.  A bound `n` holds for every
index of the resulting mesh exactly when it holds for every index the mesh had
before and for every index of every face of exactly five indices. -/
theorem C10_indices_in_range_iff {K : Type} (mesh : ofMesh K) (faces : List (List Nat))
    (n : Nat) :
    (addDodecahedronFaces mesh faces).vertices = mesh.vertices
    ∧ ((∀ i ∈ (addDodecahedronFaces mesh faces).indices, i < n) ↔
        (∀ i ∈ mesh.indices, i < n) ∧
          ∀ face ∈ faces, face.length = 5 → ∀ i ∈ face, i < n) := by
  rw [addDodecahedronFaces_eq]
  refine ⟨rfl, ?_⟩
  simp only [List.mem_append, mem_fanIndices]
  constructor
  · intro h
    exact ⟨fun i hi => h i (Or.inl hi),
      fun face hf h5 i hi => h i (Or.inr ⟨face, hf, h5, hi⟩)⟩
  · rintro ⟨h1, h2⟩ i (hi | ⟨face, hf, h5, hi⟩)
    · exact h1 i hi
    · exact h2 face hf h5 i hi

/-- Witness for the amended C10 on the hardcoded solid: every face index is
below 20, hence so is every index of the built mesh. -/
theorem C10_indices_in_range_iff_witness :
    ((addDodecahedronFaces (ofMesh.empty.addVertices dodecahedronVertices)
        dodecahedronFaces).indices.all (fun i => decide (i < 20))) = true := by
  rw [List.all_eq_true]
  intro i hi
  exact decide_eq_true ((C10_indices_in_range_iff
      (ofMesh.empty.addVertices dodecahedronVertices)
      dodecahedronFaces 20).2.2 ⟨by simp [ofMesh.empty, ofMesh.addVertices], by decide⟩ i hi)

/-! ## Normal Calculator: lemmas -/

theorem triangles_append (l₁ l₂ : List Nat) (h : l₁.length % 3 = 0) :
    triangles (l₁ ++ l₂) = triangles l₁ ++ triangles l₂ := by
  induction l₁ using triangles.induct with
  | case1 i0 i1 i2 rest ih =>
    have hr : rest.length % 3 = 0 := by simp at h; omega
    simp [triangles, ih hr]
  | case2 l hl =>
    rcases l with _ | ⟨a, _ | ⟨b, _ | ⟨c, t⟩⟩⟩
    · simp [triangles]
    · simp at h
    · simp at h
    · exact absurd rfl (hl a b c t)

theorem triangles_short (l : List Nat) (h : l.length < 3) : triangles l = [] := by
  rcases l with _ | ⟨a, _ | ⟨b, _ | ⟨c, t⟩⟩⟩ <;> simp [triangles] at h ⊢
  omega

theorem triangles_take (l : List Nat) :
    triangles (l.take (3 * (l.length / 3))) = triangles l := by
  have h1 : l = l.take (3 * (l.length / 3)) ++ l.drop (3 * (l.length / 3)) :=
    (List.take_append_drop _ _).symm
  have h2 : (l.take (3 * (l.length / 3))).length % 3 = 0 := by
    rw [List.length_take]; omega
  have h3 : triangles (l.drop (3 * (l.length / 3))) = [] := by
    apply triangles_short
    rw [List.length_drop]; omega
  conv_rhs => rw [h1, triangles_append _ _ h2, h3]
  simp

theorem bump_length {K : Type} [Zero K] [Add K] (acc : List (vec3 K)) (i : Nat) (v : vec3 K) :
    (bump acc i v).length = acc.length := by
  simp [bump]

theorem addAt_eq_bump {K : Type} [Zero K] [Add K] (acc : List (vec3 K)) (i : Nat) (v : vec3 K) (h : i < acc.length) :
    addAt acc i v = some (bump acc i v) := by
  simp [addAt, bump, List.getElem?_eq_getElem h, List.getD_eq_getElem _ _ h]

theorem bump_getD {K : Type} [Zero K] [Add K] (acc : List (vec3 K)) (i j : Nat) (x : vec3 K) (h : i < acc.length) :
    (bump acc i x).getD j 0 =
      (if i = j then [x] else []).foldl (fun s fn => s + fn) (acc.getD j 0) := by
  unfold bump
  by_cases hij : i = j
  · subst hij
    simp [List.getD_eq_getElem?_getD, List.getElem?_set, h]
  · simp [List.getD_eq_getElem?_getD, List.getElem?_set, hij]

section NormalLemmas

variable {K : Type} [Zero K] [Add K] [Sub K] [Mul K]

theorem stepTriangle_length (inversesqrt : K → K) (V acc : List (vec3 K))
    (t : Nat × Nat × Nat) : (stepTriangle inversesqrt V acc t).length = acc.length := by
  unfold stepTriangle
  split <;> simp [bump_length]

theorem stepTriangle_getD (inversesqrt : K → K) (V acc : List (vec3 K))
    (t : Nat × Nat × Nat) (v : Nat) (hacc : acc.length = V.length) :
    (stepTriangle inversesqrt V acc t).getD v 0 =
      (if inRange V.length t then triangleContribution (faceNormal inversesqrt V t) t v
        else []).foldl (fun s fn => s + fn) (acc.getD v 0) := by
  unfold stepTriangle
  by_cases h : inRange V.length t = true
  · simp only [h, if_true]
    simp only [inRange, Bool.and_eq_true, decide_eq_true_eq] at h
    obtain ⟨⟨h0, h1⟩, h2⟩ := h
    rw [bump_getD _ _ _ _ (by simp [bump_length, hacc, h2]),
      bump_getD _ _ _ _ (by simp [bump_length, hacc, h1]),
      bump_getD _ _ _ _ (by simp [hacc, h0])]
    simp only [triangleContribution, List.foldl_append]
  · simp [h]

theorem foldl_stepTriangle (inversesqrt : K → K) (V : List (vec3 K))
    (ts : List (Nat × Nat × Nat)) (acc : List (vec3 K)) (v : Nat)
    (hacc : acc.length = V.length) :
    (ts.foldl (stepTriangle inversesqrt V) acc).length = V.length ∧
    (ts.foldl (stepTriangle inversesqrt V) acc).getD v 0 =
      ((ts.filter (inRange V.length)).flatMap
        (fun t => triangleContribution (faceNormal inversesqrt V t) t v)).foldl
          (fun s fn => s + fn) (acc.getD v 0) := by
  induction ts generalizing acc with
  | nil => simp [hacc]
  | cons t ts ih =>
    have hl : (stepTriangle inversesqrt V acc t).length = V.length := by
      rw [stepTriangle_length, hacc]
    obtain ⟨ih1, ih2⟩ := ih (stepTriangle inversesqrt V acc t) hl
    refine ⟨by simpa using ih1, ?_⟩
    rw [List.foldl_cons, ih2, stepTriangle_getD _ _ _ _ _ hacc, List.filter_cons]
    by_cases h : inRange V.length t = true
    · simp [h, List.foldl_append]
    · simp [h]

theorem calculateNormalsLoop_eq (inversesqrt : K → K) (mesh : ofMesh K) (fuel i : Nat)
    (acc : List (vec3 K)) (hacc : acc.length = mesh.vertices.length)
    (hfuel : mesh.indices.length ≤ i + fuel) :
    calculateNormalsLoop inversesqrt mesh fuel i acc =
      some ((triangles (mesh.indices.drop i)).foldl
        (stepTriangle inversesqrt mesh.vertices) acc) := by
  induction fuel generalizing i acc with
  | zero =>
    have h : ¬ i < mesh.indices.length := by omega
    have hd : mesh.indices.drop i = [] := List.drop_eq_nil_of_le (by omega)
    simp [calculateNormalsLoop, h, hd, triangles]
  | succ fuel ih =>
    unfold calculateNormalsLoop
    by_cases h : i < mesh.indices.length
    · simp only [h, if_true]
      by_cases h2 : i + 2 ≥ mesh.indices.length
      · simp only [h2, if_true]
        rw [ih (i + 3) acc hacc (by omega)]
        have hd : mesh.indices.drop (i + 3) = [] := List.drop_eq_nil_of_le (by omega)
        have hs : triangles (mesh.indices.drop i) = [] :=
          triangles_short _ (by rw [List.length_drop]; omega)
        rw [hd, hs]; simp [triangles]
      · simp only [h2, if_false]
        have hi1 : i + 1 < mesh.indices.length := by omega
        have hi2 : i + 2 < mesh.indices.length := by omega
        have hd : mesh.indices.drop i =
            mesh.indices[i] :: mesh.indices[i + 1] :: mesh.indices[i + 2] ::
              mesh.indices.drop (i + 3) := by
          rw [List.drop_eq_getElem_cons h, List.drop_eq_getElem_cons hi1,
            List.drop_eq_getElem_cons hi2]
        rw [hd, List.getElem?_eq_getElem h, List.getElem?_eq_getElem hi1,
          List.getElem?_eq_getElem hi2]
        simp only [triangles, List.foldl_cons]
        by_cases hr : mesh.indices[i] ≥ mesh.vertices.length ∨
            mesh.indices[i + 1] ≥ mesh.vertices.length ∨
            mesh.indices[i + 2] ≥ mesh.vertices.length
        · have hin : inRange mesh.vertices.length
              (mesh.indices[i], mesh.indices[i + 1], mesh.indices[i + 2]) = false := by
            simp only [inRange, Bool.and_eq_false_iff, decide_eq_false_iff_not]
            omega
          simp only [hr, if_true]
          rw [ih (i + 3) acc hacc (by omega)]
          simp [stepTriangle, hin]
        · have hr0 : mesh.indices[i] < mesh.vertices.length := by omega
          have hr1 : mesh.indices[i + 1] < mesh.vertices.length := by omega
          have hr2 : mesh.indices[i + 2] < mesh.vertices.length := by omega
          have hin : inRange mesh.vertices.length
              (mesh.indices[i], mesh.indices[i + 1], mesh.indices[i + 2]) = true := by
            simp [inRange, hr0, hr1, hr2]
          simp only [hr, if_false]
          rw [List.getElem?_eq_getElem hr0, List.getElem?_eq_getElem hr1,
            List.getElem?_eq_getElem hr2]
          simp only []
          rw [addAt_eq_bump _ _ _ (by omega)]
          simp only []
          rw [addAt_eq_bump _ _ _ (by rw [bump_length]; omega)]
          simp only []
          rw [addAt_eq_bump _ _ _ (by rw [bump_length, bump_length]; omega)]
          simp only []
          rw [ih (i + 3) _ (by rw [bump_length, bump_length, bump_length]; exact hacc)
            (by omega)]
          simp [stepTriangle, hin, faceNormal, edgeCross, List.getD_eq_getElem?_getD,
            List.getElem?_eq_getElem hr0, List.getElem?_eq_getElem hr1,
            List.getElem?_eq_getElem hr2]
    · have hd : mesh.indices.drop i = [] := List.drop_eq_nil_of_le (by omega)
      simp [h, hd, triangles]

theorem calculateNormals_eq (inversesqrt : K → K) (mesh : ofMesh K) :
    calculateNormals inversesqrt mesh =
      some { mesh with normals := ((List.range mesh.vertices.length).map
          (vertexNormal inversesqrt mesh.vertices mesh.indices)) } := by
  unfold calculateNormals
  simp only []
  rw [calculateNormalsLoop_eq inversesqrt mesh _ 0 _ (by simp) (by omega)]
  simp only [List.drop_zero, ofMesh.clearNormals, ofMesh.addNormals, List.nil_append,
    Option.some.injEq]
  congr 1
  apply List.ext_getElem
  · simp [(foldl_stepTriangle inversesqrt mesh.vertices (triangles mesh.indices)
      (List.replicate mesh.vertices.length 0) 0 (by simp)).1]
  · intro v h1 h2
    have hv : v < mesh.vertices.length := by simpa using h2
    obtain ⟨hl, hg⟩ := foldl_stepTriangle inversesqrt mesh.vertices (triangles mesh.indices)
      (List.replicate mesh.vertices.length 0) v (by simp)
    rw [List.getD_eq_getElem _ _ (by omega)] at hg
    simp only [List.getElem_map, List.getElem_range, vertexNormal, accumulated, contributions]
    rw [hg]
    simp [List.getD_eq_getElem?_getD, List.getElem?_replicate, hv]

end NormalLemmas

theorem contributions_remove_triangle {K : Type} [Zero K] [Add K] [Sub K] [Mul K]
    (inversesqrt : K → K) (V : List (vec3 K)) (before after : List Nat) (i0 i1 i2 v : Nat)
    (hbefore : before.length % 3 = 0)
    (hbad : V.length ≤ i0 ∨ V.length ≤ i1 ∨ V.length ≤ i2) :
    contributions inversesqrt V (before ++ i0 :: i1 :: i2 :: after) v =
      contributions inversesqrt V (before ++ after) v := by
  have hin : inRange V.length (i0, i1, i2) = false := by
    simp only [inRange, Bool.and_eq_false_iff, decide_eq_false_iff_not]
    omega
  unfold contributions
  rw [triangles_append _ _ hbefore, triangles_append _ _ hbefore]
  simp [triangles, List.filter_cons, hin]

theorem contributions_take {K : Type} [Zero K] [Add K] [Sub K] [Mul K]
    (inversesqrt : K → K) (V : List (vec3 K)) (indices : List Nat) (v : Nat) :
    contributions inversesqrt V (indices.take (3 * (indices.length / 3))) v =
      contributions inversesqrt V indices v := by
  unfold contributions
  rw [triangles_take]

/-! ## Normal Calculator: claims -/

/-- C4: for every mesh, `calculateNormals` ends without an out-of-range access
and returns the mesh with its normal list replaced by one entry per vertex, in
vertex order; the entry of vertex `v` is `normalize` of the sum, started at the
zero vector and taken in index-list order over the complete triangles
`(i0,i1,i2)` whose indices are all below the vertex count, of
`normalize(cross(V[i1]-V[i0], V[i2]-V[i0]))`, added once for each of the
positions `i0`, `i1`, `i2` equal to `v`. -/
theorem C4_calculateNormals_vertex_normals {K : Type} [Zero K] [Add K] [Sub K] [Mul K]
    (inversesqrt : K → K) (mesh : ofMesh K) :
    calculateNormals inversesqrt mesh =
      some { mesh with normals := ((List.range mesh.vertices.length).map (fun v =>
        glm.normalize inversesqrt
          ((((triangles mesh.indices).filter (inRange mesh.vertices.length)).flatMap
            (fun t => triangleContribution (faceNormal inversesqrt mesh.vertices t) t v)).foldl
              (fun s fn => s + fn) 0))) } :=
  calculateNormals_eq inversesqrt mesh

/-- C5: a complete triangle `(i0,i1,i2)` of the index list with an index at or
above the vertex count is skipped as a whole: the run still ends without an
out-of-range access, and the normals are those computed from the index list
with that triangle removed, so it added nothing and the triangles after it
were processed. -/
theorem C5_out_of_range_triangle_skipped {K : Type} [Zero K] [Add K] [Sub K] [Mul K]
    (inversesqrt : K → K) (mesh : ofMesh K) (before after : List Nat) (i0 i1 i2 : Nat)
    (hindices : mesh.indices = before ++ i0 :: i1 :: i2 :: after)
    (hbefore : before.length % 3 = 0)
    (hbad : i0 ≥ mesh.vertices.length ∨ i1 ≥ mesh.vertices.length ∨
      i2 ≥ mesh.vertices.length) :
    (calculateNormals inversesqrt mesh).isSome = true
    ∧ (calculateNormals inversesqrt mesh).map (fun result => result.normals) =
        (calculateNormals inversesqrt { mesh with indices := before ++ after }).map
          (fun result => result.normals) := by
  rw [calculateNormals_eq, calculateNormals_eq]
  refine ⟨rfl, ?_⟩
  simp only [Option.map_some', Option.some.injEq]
  apply List.map_congr_left
  intro v _
  simp only [vertexNormal, accumulated]
  rw [hindices, contributions_remove_triangle inversesqrt _ _ _ _ _ _ _ hbefore hbad]

/-- Witness for C5: three vertices, the triangle `(0,7,1)` between two good
triangles. -/
theorem C5_out_of_range_triangle_skipped_witness :
    (calculateNormals (fun x : Int => x)
        ⟨[⟨0, 0, 0⟩, ⟨1, 0, 0⟩, ⟨0, 1, 0⟩], [0, 1, 2, 0, 7, 1, 2, 1, 0], []⟩).isSome = true
    ∧ (calculateNormals (fun x : Int => x)
        ⟨[⟨0, 0, 0⟩, ⟨1, 0, 0⟩, ⟨0, 1, 0⟩], [0, 1, 2, 0, 7, 1, 2, 1, 0], []⟩).map
          (fun result => result.normals) =
      (calculateNormals (fun x : Int => x)
        { (⟨[⟨0, 0, 0⟩, ⟨1, 0, 0⟩, ⟨0, 1, 0⟩], [0, 1, 2, 0, 7, 1, 2, 1, 0], []⟩ : ofMesh Int)
          with indices := [0, 1, 2] ++ [2, 1, 0] }).map (fun result => result.normals) :=
  C5_out_of_range_triangle_skipped (fun x : Int => x)
    ⟨[⟨0, 0, 0⟩, ⟨1, 0, 0⟩, ⟨0, 1, 0⟩], [0, 1, 2, 0, 7, 1, 2, 1, 0], []⟩
    [0, 1, 2] [2, 1, 0] 0 7 1 rfl (by decide) (by decide)

/-- C6: when the length `n` of the index list is not a multiple of 3,
`calculateNormals` still ends without reading the index list (or any other
container) out of range, and the normals are those computed from the first
`3 * (n / 3)` indices: the one or two trailing indices are skipped. -/
theorem C6_trailing_indices_skipped {K : Type} [Zero K] [Add K] [Sub K] [Mul K]
    (inversesqrt : K → K) (mesh : ofMesh K) (_hn : mesh.indices.length % 3 ≠ 0) :
    (calculateNormals inversesqrt mesh).isSome = true
    ∧ (calculateNormals inversesqrt mesh).map (fun result => result.normals) =
        (calculateNormals inversesqrt
          { mesh with indices := (mesh.indices.take (3 * (mesh.indices.length / 3))) }).map
            (fun result => result.normals) := by
  rw [calculateNormals_eq, calculateNormals_eq]
  refine ⟨rfl, ?_⟩
  simp only [Option.map_some', Option.some.injEq]
  apply List.map_congr_left
  intro v _
  simp only [vertexNormal, accumulated]
  rw [contributions_take]

/-- Witness for C6: five indices, one triangle and two trailing indices. -/
theorem C6_trailing_indices_skipped_witness :
    (calculateNormals (fun x : Int => x)
        ⟨[⟨0, 0, 0⟩, ⟨1, 0, 0⟩, ⟨0, 1, 0⟩], [0, 1, 2, 1, 2], []⟩).isSome = true
    ∧ (calculateNormals (fun x : Int => x)
        ⟨[⟨0, 0, 0⟩, ⟨1, 0, 0⟩, ⟨0, 1, 0⟩], [0, 1, 2, 1, 2], []⟩).map
          (fun result => result.normals) =
      (calculateNormals (fun x : Int => x)
        { (⟨[⟨0, 0, 0⟩, ⟨1, 0, 0⟩, ⟨0, 1, 0⟩], [0, 1, 2, 1, 2], []⟩ : ofMesh Int)
          with indices := (([0, 1, 2, 1, 2] : List Nat).take
            (3 * (([0, 1, 2, 1, 2] : List Nat).length / 3))) }).map
              (fun result => result.normals) :=
  C6_trailing_indices_skipped (fun x : Int => x)
    ⟨[⟨0, 0, 0⟩, ⟨1, 0, 0⟩, ⟨0, 1, 0⟩], [0, 1, 2, 1, 2], []⟩ (by decide)

/-- C7: for every mesh, whatever normals it already carries, the result of
`calculateNormals` does not depend on them, and running `calculateNormals` on
its own result gives that result again: the old normals are cleared and
replaced, never added to or kept. -/
theorem C7_calculateNormals_idempotent {K : Type} [Zero K] [Add K] [Sub K] [Mul K]
    (inversesqrt : K → K) (mesh : ofMesh K) (stale : List (vec3 K)) :
    (calculateNormals inversesqrt mesh).isSome = true
    ∧ (calculateNormals inversesqrt mesh).bind (calculateNormals inversesqrt) =
        calculateNormals inversesqrt mesh
    ∧ calculateNormals inversesqrt { mesh with normals := stale } =
        calculateNormals inversesqrt mesh := by
  refine ⟨?_, ?_, ?_⟩
  · rw [calculateNormals_eq]; rfl
  · rw [calculateNormals_eq, Option.some_bind, calculateNormals_eq]
  · rw [calculateNormals_eq, calculateNormals_eq]

/-! ## Real arithmetic: lemmas -/

theorem vec3.add_def {K : Type} [Add K] (a b : vec3 K) :
    a + b = ⟨a.x + b.x, a.y + b.y, a.z + b.z⟩ := rfl

theorem vec3.sub_def {K : Type} [Sub K] (a b : vec3 K) :
    a - b = ⟨a.x - b.x, a.y - b.y, a.z - b.z⟩ := rfl

theorem vec3.zero_def {K : Type} [Zero K] : (0 : vec3 K) = ⟨0, 0, 0⟩ := rfl

theorem dot_add_right (U a b : vec3 ℝ) : glm.dot U (a + b) = glm.dot U a + glm.dot U b := by
  simp only [glm.dot, vec3.add_def]; ring

theorem dot_zero_right (U : vec3 ℝ) : glm.dot U 0 = 0 := by
  simp [glm.dot, vec3.zero_def]

theorem dot_scale_right (U W : vec3 ℝ) (c : ℝ) :
    glm.dot U (W.scale c) = glm.dot U W * c := by
  simp only [glm.dot, vec3.scale]; ring

theorem dot_scale_scale (W : vec3 ℝ) (c : ℝ) :
    glm.dot (W.scale c) (W.scale c) = glm.dot W W * (c * c) := by
  simp only [glm.dot, vec3.scale]; ring

theorem dot_self_nonneg (W : vec3 ℝ) : 0 ≤ glm.dot W W := by
  simp only [glm.dot]
  nlinarith [mul_self_nonneg W.x, mul_self_nonneg W.y, mul_self_nonneg W.z]

theorem dot_self_pos (W : vec3 ℝ) (h : W ≠ 0) : 0 < glm.dot W W := by
  rcases W with ⟨x, y, z⟩
  have hne : x ≠ 0 ∨ y ≠ 0 ∨ z ≠ 0 := by
    by_contra hc
    push_neg at hc
    obtain ⟨hx, hy, hz⟩ := hc
    exact h (by rw [hx, hy, hz]; rfl)
  simp only [glm.dot]
  rcases hne with hx | hy | hz
  · nlinarith [mul_self_pos.2 hx, mul_self_nonneg y, mul_self_nonneg z]
  · nlinarith [mul_self_pos.2 hy, mul_self_nonneg x, mul_self_nonneg z]
  · nlinarith [mul_self_pos.2 hz, mul_self_nonneg x, mul_self_nonneg y]

theorem unitLength_normalize (W : vec3 ℝ) (h : W ≠ 0) :
    unitLength (glm.normalize (fun x : ℝ => (Real.sqrt x)⁻¹) W) := by
  have hd : 0 < glm.dot W W := dot_self_pos W h
  have hs : 0 < Real.sqrt (glm.dot W W) := Real.sqrt_pos.2 hd
  unfold unitLength glm.normalize
  rw [dot_scale_scale]
  have : glm.dot W W * ((Real.sqrt (glm.dot W W))⁻¹ * (Real.sqrt (glm.dot W W))⁻¹) = 1 := by
    nth_rewrite 1 [← Real.mul_self_sqrt hd.le]
    field_simp
  simp only [this, Real.sqrt_one]

theorem dot_normalize_pos (U W : vec3 ℝ) (h : 0 < glm.dot U W) :
    0 < glm.dot U (glm.normalize (fun x : ℝ => (Real.sqrt x)⁻¹) W) := by
  have hW : W ≠ 0 := by
    intro h0
    rw [h0, dot_zero_right] at h
    exact lt_irrefl _ h
  have hs : 0 < Real.sqrt (glm.dot W W) := Real.sqrt_pos.2 (dot_self_pos W hW)
  unfold glm.normalize
  rw [dot_scale_right]
  exact mul_pos h (inv_pos.2 hs)

theorem foldl_add_dot_pos (U : vec3 ℝ) (L : List (vec3 ℝ)) (s : vec3 ℝ)
    (hs : 0 < glm.dot U s) (hL : ∀ c ∈ L, 0 < glm.dot U c) :
    0 < glm.dot U (L.foldl (fun s fn => s + fn) s) := by
  induction L generalizing s with
  | nil => simpa using hs
  | cons c L ih =>
    rw [List.foldl_cons]
    apply ih
    · rw [dot_add_right]
      exact add_pos hs (hL c (List.mem_cons_self _ _))
    · intro c' hc'
      exact hL c' (List.mem_cons_of_mem _ hc')

theorem foldl_add_dot_pos_of_ne_nil (U : vec3 ℝ) (L : List (vec3 ℝ)) (hne : L ≠ [])
    (hL : ∀ c ∈ L, 0 < glm.dot U c) :
    0 < glm.dot U (L.foldl (fun s fn => s + fn) 0) := by
  rcases L with _ | ⟨c, L⟩
  · exact absurd rfl hne
  · rw [List.foldl_cons]
    apply foldl_add_dot_pos
    · rw [dot_add_right, dot_zero_right, zero_add]
      exact hL c (List.mem_cons_self _ _)
    · intro c' hc'
      exact hL c' (List.mem_cons_of_mem _ hc')

theorem mem_triangleContribution {K : Type} (fn c : vec3 K) (t : Nat × Nat × Nat) (v : Nat) :
    c ∈ triangleContribution fn t v ↔ touches t v = true ∧ c = fn := by
  unfold triangleContribution touches
  by_cases h0 : t.1 = v <;> by_cases h1 : t.2.1 = v <;> by_cases h2 : t.2.2 = v <;>
    simp [h0, h1, h2]

theorem mem_contributions {K : Type} [Zero K] [Add K] [Sub K] [Mul K] (inversesqrt : K → K)
    (V : List (vec3 K)) (indices : List Nat) (v : Nat) (c : vec3 K) :
    c ∈ contributions inversesqrt V indices v ↔
      ∃ t ∈ (triangles indices).filter (inRange V.length),
        touches t v = true ∧ c = faceNormal inversesqrt V t := by
  unfold contributions
  simp only [List.mem_flatMap, mem_triangleContribution]

theorem accumulated_dot_pos (V : List (vec3 ℝ)) (indices : List Nat) (v : Nat) (U : vec3 ℝ)
    (hne : ∃ t ∈ (triangles indices).filter (inRange V.length), touches t v = true)
    (hpos : ∀ t ∈ (triangles indices).filter (inRange V.length), touches t v = true →
      0 < glm.dot U (edgeCross V t)) :
    0 < glm.dot U (accumulated (fun x : ℝ => (Real.sqrt x)⁻¹) V indices v) := by
  unfold accumulated
  apply foldl_add_dot_pos_of_ne_nil
  · obtain ⟨t, ht, hv⟩ := hne
    intro hnil
    have hm : faceNormal (fun x : ℝ => (Real.sqrt x)⁻¹) V t ∈
        contributions (fun x : ℝ => (Real.sqrt x)⁻¹) V indices v :=
      (mem_contributions _ V indices v _).2 ⟨t, ht, hv, rfl⟩
    rw [hnil] at hm
    exact List.not_mem_nil _ hm
  · intro c hc
    obtain ⟨t, ht, hv, rfl⟩ := (mem_contributions _ V indices v c).1 hc
    exact dot_normalize_pos U _ (hpos t ht hv)

theorem accumulated_ne_zero_of_dot_pos (s U : vec3 ℝ) (h : 0 < glm.dot U s) : s ≠ 0 := by
  intro h0
  rw [h0, dot_zero_right] at h
  exact lt_irrefl _ h

theorem lt_length_of_touches (n : Nat) (t : Nat × Nat × Nat) (v : Nat)
    (hin : inRange n t = true) (hv : touches t v = true) : v < n := by
  simp only [inRange, Bool.and_eq_true, decide_eq_true_eq] at hin
  simp only [touches, Bool.or_eq_true, decide_eq_true_eq] at hv
  omega

/-! ## The hardcoded solid in real arithmetic -/

theorem setupBuild_indices {K : Type} (ofLiteral : ℚ → K) :
    (setupBuild ofLiteral).indices = fanIndices dodecahedronFaces := by
  simp [setupBuild, addDodecahedronFaces_eq, ofMesh.addVertices, ofMesh.empty]

theorem setupBuild_vertices_real :
    (setupBuild (fun q : ℚ => (q : ℝ))).vertices =
      milliVertices.map (vec3.map (fun n : ℤ => (n : ℝ) / 1000)) := by
  simp [setupBuild, addDodecahedronFaces_eq, ofMesh.addVertices, ofMesh.empty,
    dodecahedronVertices, milliVertices, vec3.map]
  norm_num

theorem getD_map_milli (Vz : List (vec3 ℤ)) (i : Nat) :
    (Vz.map (vec3.map (fun n : ℤ => (n : ℝ) / 1000))).getD i 0 =
      (Vz.getD i 0).map (fun n : ℤ => (n : ℝ) / 1000) := by
  have h0 : (0 : vec3 ℝ) = vec3.map (fun n : ℤ => (n : ℝ) / 1000) 0 := by
    simp [vec3.map, vec3.zero_def]
  rw [h0, List.getD_map]

theorem dot_edgeCross_milli (Vz : List (vec3 ℤ)) (v : Nat) (t : Nat × Nat × Nat) :
    glm.dot ((Vz.map (vec3.map (fun n : ℤ => (n : ℝ) / 1000))).getD v 0)
        (edgeCross (Vz.map (vec3.map (fun n : ℤ => (n : ℝ) / 1000))) t) =
      ((glm.dot (Vz.getD v 0) (edgeCross Vz t) : ℤ) : ℝ) / 1000000000 := by
  unfold edgeCross
  simp only [getD_map_milli]
  generalize Vz.getD v 0 = a
  generalize Vz.getD t.1 0 = b
  generalize Vz.getD t.2.1 0 = c
  generalize Vz.getD t.2.2 0 = d
  simp only [glm.dot, glm.cross, vec3.map, vec3.sub_def]
  push_cast
  ring

set_option maxRecDepth 1000000 in
theorem milli_outward :
    ∀ t ∈ (triangles (fanIndices dodecahedronFaces)).filter (inRange 20),
      0 < glm.dot (milliVertices.getD t.1 0) (edgeCross milliVertices t) ∧
      0 < glm.dot (milliVertices.getD t.2.1 0) (edgeCross milliVertices t) ∧
      0 < glm.dot (milliVertices.getD t.2.2 0) (edgeCross milliVertices t) := by
  decide

set_option maxRecDepth 1000000 in
theorem milli_cover :
    ∀ v, v < 20 →
      ∃ t ∈ (triangles (fanIndices dodecahedronFaces)).filter (inRange 20),
        touches t v = true := by
  decide

set_option maxRecDepth 1000000 in
theorem milli_all_in_range :
    (triangles (fanIndices dodecahedronFaces)).filter (inRange 20) =
      triangles (fanIndices dodecahedronFaces) := by
  decide

theorem setupBuild_vertices_length {K : Type} (ofLiteral : ℚ → K) :
    (setupBuild ofLiteral).vertices.length = 20 := by
  simp [setupBuild, addDodecahedronFaces_eq, ofMesh.addVertices, ofMesh.empty,
    dodecahedronVertices]

theorem setupBuild_corner_dot_pos (t : Nat × Nat × Nat)
    (ht : t ∈ (triangles (setupBuild (fun q : ℚ => (q : ℝ))).indices).filter
      (inRange (setupBuild (fun q : ℚ => (q : ℝ))).vertices.length))
    (v : Nat) (hv : touches t v = true) :
    0 < glm.dot ((setupBuild (fun q : ℚ => (q : ℝ))).vertices.getD v 0)
      (edgeCross (setupBuild (fun q : ℚ => (q : ℝ))).vertices t) := by
  rw [setupBuild_indices, setupBuild_vertices_length] at ht
  rw [setupBuild_vertices_real, dot_edgeCross_milli]
  obtain ⟨h0, h1, h2⟩ := milli_outward t ht
  have hz : 0 < glm.dot (milliVertices.getD v 0) (edgeCross milliVertices t) := by
    simp only [touches, Bool.or_eq_true, decide_eq_true_eq] at hv
    rcases hv with (hv | hv) | hv
    · rw [← hv]; exact h0
    · rw [← hv]; exact h1
    · rw [← hv]; exact h2
  have hr : (0 : ℝ) < ((glm.dot (milliVertices.getD v 0) (edgeCross milliVertices t) : ℤ) : ℝ) :=
    by exact_mod_cast hz
  positivity

theorem setupBuild_accumulated_ne_zero (v : Nat) (hv : v < 20) :
    accumulated (fun x : ℝ => (Real.sqrt x)⁻¹) (setupBuild (fun q : ℚ => (q : ℝ))).vertices
      (setupBuild (fun q : ℚ => (q : ℝ))).indices v ≠ 0 := by
  apply accumulated_ne_zero_of_dot_pos _
    ((setupBuild (fun q : ℚ => (q : ℝ))).vertices.getD v 0)
  apply accumulated_dot_pos
  · rw [setupBuild_indices, setupBuild_vertices_length]
    exact milli_cover v hv
  · intro t ht htv
    exact setupBuild_corner_dot_pos t ht v htv

theorem setup_eq {K : Type} [Zero K] [Add K] [Sub K] [Mul K] (ofLiteral : ℚ → K)
    (inversesqrt : K → K) :
    setup ofLiteral inversesqrt =
      some (scaleMesh { setupBuild ofLiteral with normals :=
        ((List.range (setupBuild ofLiteral).vertices.length).map
          (vertexNormal inversesqrt (setupBuild ofLiteral).vertices
            (setupBuild ofLiteral).indices)) } (ofLiteral 100)) := by
  unfold setup
  rw [calculateNormals_eq]

/-- C9: on the hardcoded solid in real arithmetic, the mesh part of `setup`
ends without an out-of-range access and leaves exactly 20 normals, each of
magnitude 1; the index list holds 36 triangles, all in range and none with a
zero edge cross product, and none of the 20 accumulated sums is the zero
vector. -/
theorem C9_dodecahedron_unit_normals :
    (∃ result, setup (fun q : ℚ => (q : ℝ)) (fun x : ℝ => (Real.sqrt x)⁻¹) = some result
      ∧ result.normals.length = 20 ∧ ∀ nv ∈ result.normals, unitLength nv)
    ∧ (triangles (setupBuild (fun q : ℚ => (q : ℝ))).indices).length = 36
    ∧ (∀ t ∈ triangles (setupBuild (fun q : ℚ => (q : ℝ))).indices,
        inRange 20 t = true ∧ edgeCross (setupBuild (fun q : ℚ => (q : ℝ))).vertices t ≠ 0)
    ∧ (∀ v, v < 20 →
        accumulated (fun x : ℝ => (Real.sqrt x)⁻¹) (setupBuild (fun q : ℚ => (q : ℝ))).vertices
          (setupBuild (fun q : ℚ => (q : ℝ))).indices v ≠ 0) := by
  refine ⟨?_, ?_, ?_, setupBuild_accumulated_ne_zero⟩
  · refine ⟨_, setup_eq _ _, ?_, ?_⟩
    · simp [scaleMesh, setupBuild_vertices_length]
    · intro nv hnv
      simp only [scaleMesh, setupBuild_vertices_length, List.mem_map, List.mem_range] at hnv
      obtain ⟨v, hv, rfl⟩ := hnv
      exact unitLength_normalize _ (setupBuild_accumulated_ne_zero v hv)
  · rw [setupBuild_indices]; decide
  · intro t ht
    have ht2 : t ∈ (triangles (setupBuild (fun q : ℚ => (q : ℝ))).indices).filter
        (inRange (setupBuild (fun q : ℚ => (q : ℝ))).vertices.length) := by
      rw [setupBuild_indices, setupBuild_vertices_length, milli_all_in_range]
      rw [setupBuild_indices] at ht
      exact ht
    refine ⟨?_, ?_⟩
    · rw [setupBuild_vertices_length] at ht2
      exact (List.mem_filter.1 ht2).2
    · exact accumulated_ne_zero_of_dot_pos _ _
        (setupBuild_corner_dot_pos t ht2 t.1 (by simp [touches]))

/-! ## Rounded arithmetic with NaN: lemmas -/

theorem fl_zero (fl : ℝ → ℝ) (u : ℝ) (hfl : ∀ x, |fl x - x| ≤ u * |x|) : fl 0 = 0 := by
  have h := hfl 0
  simp only [abs_zero, mul_zero, sub_zero] at h
  exact abs_nonpos_iff.1 h

theorem fl_nonneg_bounds (fl : ℝ → ℝ) (u : ℝ) (hfl : ∀ x, |fl x - x| ≤ u * |x|)
    (y : ℝ) (hy : 0 ≤ y) : (1 - u) * y ≤ fl y ∧ fl y ≤ (1 + u) * y := by
  have h := hfl y
  rw [abs_of_nonneg hy] at h
  obtain ⟨h1, h2⟩ := abs_le.1 h
  constructor <;> linarith

theorem fl_pos (fl : ℝ → ℝ) (u : ℝ) (hu1 : u < 1) (hfl : ∀ x, |fl x - x| ≤ u * |x|)
    (y : ℝ) (hy : 0 < y) : 0 < fl y := by
  have h := (fl_nonneg_bounds fl u hfl y hy.le).1
  have : 0 < (1 - u) * y := mul_pos (by linarith) hy
  linarith

theorem fl_sq_bounds (fl : ℝ → ℝ) (u : ℝ) (hu1 : u < 1)
    (hfl : ∀ x, |fl x - x| ≤ u * |x|) (y : ℝ) :
    (1 - u) ^ 2 * (y * y) ≤ fl y * fl y ∧ fl y * fl y ≤ (1 + u) ^ 2 * (y * y) := by
  have h := hfl y
  obtain ⟨h1, h2⟩ := abs_le.1 h
  rcases le_total 0 y with hy | hy
  · rw [abs_of_nonneg hy] at h1 h2
    have hl : (1 - u) * y ≤ fl y := by linarith
    have hr : fl y ≤ (1 + u) * y := by linarith
    have h0 : 0 ≤ (1 - u) * y := mul_nonneg (by linarith) hy
    constructor
    · nlinarith [mul_self_le_mul_self h0 hl]
    · nlinarith [mul_self_le_mul_self (le_trans h0 hl) hr]
  · rw [abs_of_nonpos hy] at h1 h2
    have hl : (1 + u) * y ≤ fl y := by linarith
    have hr : fl y ≤ (1 - u) * y := by linarith
    have h0 : 0 ≤ -((1 - u) * y) := by nlinarith
    have h3 : -((1 - u) * y) ≤ -(fl y) := by linarith
    have h4 : -(fl y) ≤ -((1 + u) * y) := by linarith
    constructor
    · nlinarith [mul_self_le_mul_self h0 h3]
    · nlinarith [mul_self_le_mul_self (le_trans h0 h3) h4]


theorem rounded_dot_bounds (fl : ℝ → ℝ) (u : ℝ) (hu0 : 0 ≤ u) (hu1 : u < 1)
    (hfl : ∀ x, |fl x - x| ≤ u * |x|) (x y z : ℝ) :
    (1 - u) ^ 3 * (x * x + y * y + z * z) ≤ fl (fl (fl (x * x) + fl (y * y)) + fl (z * z)) ∧
    fl (fl (fl (x * x) + fl (y * y)) + fl (z * z)) ≤ (1 + u) ^ 3 * (x * x + y * y + z * z) := by
  have hp : 0 < 1 - u := by linarith
  obtain ⟨hx1, hx2⟩ := fl_nonneg_bounds fl u hfl (x * x) (mul_self_nonneg x)
  obtain ⟨hy1, hy2⟩ := fl_nonneg_bounds fl u hfl (y * y) (mul_self_nonneg y)
  obtain ⟨hz1, hz2⟩ := fl_nonneg_bounds fl u hfl (z * z) (mul_self_nonneg z)
  have hxx : 0 ≤ x * x := mul_self_nonneg x
  have hyy : 0 ≤ y * y := mul_self_nonneg y
  have hzz : 0 ≤ z * z := mul_self_nonneg z
  have htx : 0 ≤ fl (x * x) := le_trans (mul_nonneg hp.le hxx) hx1
  have hty : 0 ≤ fl (y * y) := le_trans (mul_nonneg hp.le hyy) hy1
  have htz : 0 ≤ fl (z * z) := le_trans (mul_nonneg hp.le hzz) hz1
  obtain ⟨ha1, ha2⟩ := fl_nonneg_bounds fl u hfl (fl (x * x) + fl (y * y)) (add_nonneg htx hty)
  have hta : 0 ≤ fl (fl (x * x) + fl (y * y)) :=
    le_trans (mul_nonneg hp.le (add_nonneg htx hty)) ha1
  obtain ⟨hD1, hD2⟩ := fl_nonneg_bounds fl u hfl
    (fl (fl (x * x) + fl (y * y)) + fl (z * z)) (add_nonneg hta htz)
  constructor
  · have e1 : (1 - u) * ((1 - u) * ((1 - u) * (x * x) + (1 - u) * (y * y)) + (1 - u) * (z * z))
        ≤ (1 - u) * (fl (fl (x * x) + fl (y * y)) + fl (z * z)) := by
      apply mul_le_mul_of_nonneg_left _ hp.le
      have : (1 - u) * ((1 - u) * (x * x) + (1 - u) * (y * y)) ≤
          (1 - u) * (fl (x * x) + fl (y * y)) :=
        mul_le_mul_of_nonneg_left (by linarith) hp.le
      linarith
    have e2 : (1 - u) ^ 3 * (x * x + y * y + z * z) ≤
        (1 - u) * ((1 - u) * ((1 - u) * (x * x) + (1 - u) * (y * y)) + (1 - u) * (z * z)) := by
      have : (1 - u) ^ 3 * (z * z) ≤ (1 - u) ^ 2 * (z * z) := by
        apply mul_le_mul_of_nonneg_right _ hzz
        nlinarith [sq_nonneg (1 - u)]
      nlinarith
    linarith
  · have hq : 0 ≤ 1 + u := by linarith
    have e1 : (1 + u) * (fl (fl (x * x) + fl (y * y)) + fl (z * z)) ≤
        (1 + u) * ((1 + u) * ((1 + u) * (x * x) + (1 + u) * (y * y)) + (1 + u) * (z * z)) := by
      apply mul_le_mul_of_nonneg_left _ hq
      have : (1 + u) * (fl (x * x) + fl (y * y)) ≤
          (1 + u) * ((1 + u) * (x * x) + (1 + u) * (y * y)) :=
        mul_le_mul_of_nonneg_left (by linarith) hq
      linarith
    have e2 : (1 + u) * ((1 + u) * ((1 + u) * (x * x) + (1 + u) * (y * y)) + (1 + u) * (z * z))
        ≤ (1 + u) ^ 3 * (x * x + y * y + z * z) := by
      have : (1 + u) ^ 2 * (z * z) ≤ (1 + u) ^ 3 * (z * z) := by
        apply mul_le_mul_of_nonneg_right _ hzz
        nlinarith [sq_nonneg (1 + u)]
      nlinarith
    linarith

theorem rounded_normalize_bounds (fl : ℝ → ℝ) (u : ℝ) (hu0 : 0 ≤ u) (hu1 : u < 1)
    (hfl : ∀ x, |fl x - x| ≤ u * |x|) (x y z D c : ℝ)
    (hd : 0 < x * x + y * y + z * z)
    (hD : D = fl (fl (fl (x * x) + fl (y * y)) + fl (z * z)))
    (hc : c = fl (1 / fl (Real.sqrt D))) :
    0 < D ∧
    (1 - u) ^ 4 ≤ (fl (x * c) * fl (x * c) + fl (y * c) * fl (y * c) + fl (z * c) * fl (z * c))
      * (1 + u) ^ 5 ∧
    (fl (x * c) * fl (x * c) + fl (y * c) * fl (y * c) + fl (z * c) * fl (z * c))
      * (1 - u) ^ 5 ≤ (1 + u) ^ 4 := by
  have hp : 0 < 1 - u := by linarith
  have hq : 0 < 1 + u := by linarith
  obtain ⟨hD1, hD2⟩ := rounded_dot_bounds fl u hu0 hu1 hfl x y z
  rw [← hD] at hD1 hD2
  have hDpos : 0 < D := lt_of_lt_of_le (mul_pos (pow_pos hp 3) hd) hD1
  have hsD : 0 < Real.sqrt D := Real.sqrt_pos.2 hDpos
  have hss : Real.sqrt D * Real.sqrt D = D := Real.mul_self_sqrt hDpos.le
  obtain ⟨hr1, hr2⟩ := fl_nonneg_bounds fl u hfl (Real.sqrt D) hsD.le
  have hrpos : 0 < fl (Real.sqrt D) := fl_pos fl u hu1 hfl _ hsD
  have hrr1 : (1 - u) ^ 2 * D ≤ fl (Real.sqrt D) * fl (Real.sqrt D) := by
    have h0 : 0 ≤ (1 - u) * Real.sqrt D := mul_nonneg hp.le hsD.le
    have := mul_self_le_mul_self h0 hr1
    nlinarith
  have hrr2 : fl (Real.sqrt D) * fl (Real.sqrt D) ≤ (1 + u) ^ 2 * D := by
    have := mul_self_le_mul_self hrpos.le hr2
    nlinarith
  have hinv : 0 < 1 / fl (Real.sqrt D) := by positivity
  obtain ⟨hc1, hc2⟩ := fl_nonneg_bounds fl u hfl (1 / fl (Real.sqrt D)) hinv.le
  rw [← hc] at hc1 hc2
  have hcpos : 0 < c := by rw [hc]; exact fl_pos fl u hu1 hfl _ hinv
  have hcr1 : 1 - u ≤ c * fl (Real.sqrt D) := by
    have := mul_le_mul_of_nonneg_right hc1 hrpos.le
    have e : (1 - u) * (1 / fl (Real.sqrt D)) * fl (Real.sqrt D) = 1 - u := by
      field_simp
    linarith
  have hcr2 : c * fl (Real.sqrt D) ≤ 1 + u := by
    have := mul_le_mul_of_nonneg_right hc2 hrpos.le
    have e : (1 + u) * (1 / fl (Real.sqrt D)) * fl (Real.sqrt D) = 1 + u := by
      field_simp
    linarith
  have hcr0 : 0 ≤ c * fl (Real.sqrt D) := (mul_pos hcpos hrpos).le
  have hcrsq1 : (1 - u) ^ 2 ≤ (c * c) * (fl (Real.sqrt D) * fl (Real.sqrt D)) := by
    have := mul_self_le_mul_self hp.le hcr1
    nlinarith
  have hcrsq2 : (c * c) * (fl (Real.sqrt D) * fl (Real.sqrt D)) ≤ (1 + u) ^ 2 := by
    have := mul_self_le_mul_self hcr0 hcr2
    nlinarith
  obtain ⟨hx1, hx2⟩ := fl_sq_bounds fl u hu1 hfl (x * c)
  obtain ⟨hy1, hy2⟩ := fl_sq_bounds fl u hu1 hfl (y * c)
  obtain ⟨hz1, hz2⟩ := fl_sq_bounds fl u hu1 hfl (z * c)
  have hM1 : (1 - u) ^ 2 * ((c * c) * (x * x + y * y + z * z)) ≤
      fl (x * c) * fl (x * c) + fl (y * c) * fl (y * c) + fl (z * c) * fl (z * c) := by
    have e : (1 - u) ^ 2 * ((c * c) * (x * x + y * y + z * z)) =
        (1 - u) ^ 2 * (x * c * (x * c)) + (1 - u) ^ 2 * (y * c * (y * c)) +
          (1 - u) ^ 2 * (z * c * (z * c)) := by ring
    linarith
  have hM2 : fl (x * c) * fl (x * c) + fl (y * c) * fl (y * c) + fl (z * c) * fl (z * c) ≤
      (1 + u) ^ 2 * ((c * c) * (x * x + y * y + z * z)) := by
    have e : (1 + u) ^ 2 * ((c * c) * (x * x + y * y + z * z)) =
        (1 + u) ^ 2 * (x * c * (x * c)) + (1 + u) ^ 2 * (y * c * (y * c)) +
          (1 + u) ^ 2 * (z * c * (z * c)) := by ring
    linarith
  have hcc : 0 ≤ c * c := mul_self_nonneg c
  refine ⟨hDpos, ?_, ?_⟩
  · have h1 : fl (Real.sqrt D) * fl (Real.sqrt D) ≤ (1 + u) ^ 5 * (x * x + y * y + z * z) := by
      have : (1 + u) ^ 2 * D ≤ (1 + u) ^ 2 * ((1 + u) ^ 3 * (x * x + y * y + z * z)) :=
        mul_le_mul_of_nonneg_left hD2 (by positivity)
      calc fl (Real.sqrt D) * fl (Real.sqrt D) ≤ (1 + u) ^ 2 * D := hrr2
        _ ≤ (1 + u) ^ 2 * ((1 + u) ^ 3 * (x * x + y * y + z * z)) := this
        _ = (1 + u) ^ 5 * (x * x + y * y + z * z) := by ring
    have h2 : (c * c) * (fl (Real.sqrt D) * fl (Real.sqrt D)) ≤
        (c * c) * ((1 + u) ^ 5 * (x * x + y * y + z * z)) :=
      mul_le_mul_of_nonneg_left h1 hcc
    have h3 : (1 - u) ^ 2 * (1 - u) ^ 2 ≤
        (1 - u) ^ 2 * ((c * c) * ((1 + u) ^ 5 * (x * x + y * y + z * z))) :=
      mul_le_mul_of_nonneg_left (le_trans hcrsq1 h2) (by positivity)
    have h4 : (1 - u) ^ 2 * ((c * c) * (x * x + y * y + z * z)) * (1 + u) ^ 5 ≤
        (fl (x * c) * fl (x * c) + fl (y * c) * fl (y * c) + fl (z * c) * fl (z * c))
          * (1 + u) ^ 5 :=
      mul_le_mul_of_nonneg_right hM1 (by positivity)
    calc (1 - u) ^ 4 = (1 - u) ^ 2 * (1 - u) ^ 2 := by ring
      _ ≤ (1 - u) ^ 2 * ((c * c) * ((1 + u) ^ 5 * (x * x + y * y + z * z))) := h3
      _ = (1 - u) ^ 2 * ((c * c) * (x * x + y * y + z * z)) * (1 + u) ^ 5 := by ring
      _ ≤ _ := h4
  · have h1 : (1 - u) ^ 5 * (x * x + y * y + z * z) ≤ fl (Real.sqrt D) * fl (Real.sqrt D) := by
      have : (1 - u) ^ 2 * ((1 - u) ^ 3 * (x * x + y * y + z * z)) ≤ (1 - u) ^ 2 * D :=
        mul_le_mul_of_nonneg_left hD1 (by positivity)
      calc (1 - u) ^ 5 * (x * x + y * y + z * z)
          = (1 - u) ^ 2 * ((1 - u) ^ 3 * (x * x + y * y + z * z)) := by ring
        _ ≤ (1 - u) ^ 2 * D := this
        _ ≤ _ := hrr1
    have h2 : (c * c) * ((1 - u) ^ 5 * (x * x + y * y + z * z)) ≤
        (c * c) * (fl (Real.sqrt D) * fl (Real.sqrt D)) :=
      mul_le_mul_of_nonneg_left h1 hcc
    have h3 : (1 + u) ^ 2 * ((c * c) * ((1 - u) ^ 5 * (x * x + y * y + z * z))) ≤
        (1 + u) ^ 2 * (1 + u) ^ 2 :=
      mul_le_mul_of_nonneg_left (le_trans h2 hcrsq2) (by positivity)
    have h4 : (fl (x * c) * fl (x * c) + fl (y * c) * fl (y * c) + fl (z * c) * fl (z * c))
          * (1 - u) ^ 5 ≤
        (1 + u) ^ 2 * ((c * c) * (x * x + y * y + z * z)) * (1 - u) ^ 5 :=
      mul_le_mul_of_nonneg_right hM2 (by positivity)
    calc _ ≤ (1 + u) ^ 2 * ((c * c) * (x * x + y * y + z * z)) * (1 - u) ^ 5 := h4
      _ = (1 + u) ^ 2 * ((c * c) * ((1 - u) ^ 5 * (x * x + y * y + z * z))) := by ring
      _ ≤ (1 + u) ^ 2 * (1 + u) ^ 2 := h3
      _ = (1 + u) ^ 4 := by ring

theorem magnitude_within_tolerance (u M : ℝ) (hu0 : 0 ≤ u) (hu : u ≤ 1 / 1000000)
    (h1 : (1 - u) ^ 4 ≤ M * (1 + u) ^ 5) (h2 : M * (1 - u) ^ 5 ≤ (1 + u) ^ 4) :
    |Real.sqrt M - 1| ≤ 1 / 100000 := by
  have hp : (1 - 1 / 1000000 : ℝ) ≤ 1 - u := by linarith
  have hq : 1 + u ≤ (1 + 1 / 1000000 : ℝ) := by linarith
  have hp4 : (1 - 1 / 1000000 : ℝ) ^ 4 ≤ (1 - u) ^ 4 := pow_le_pow_left₀ (by norm_num) hp 4
  have hp5 : (1 - 1 / 1000000 : ℝ) ^ 5 ≤ (1 - u) ^ 5 := pow_le_pow_left₀ (by norm_num) hp 5
  have hq4 : (1 + u) ^ 4 ≤ (1 + 1 / 1000000 : ℝ) ^ 4 := pow_le_pow_left₀ (by linarith) hq 4
  have hq5 : (1 + u) ^ 5 ≤ (1 + 1 / 1000000 : ℝ) ^ 5 := pow_le_pow_left₀ (by linarith) hq 5
  have hq5pos : (0 : ℝ) < (1 + u) ^ 5 := by positivity
  have hp5pos : (0 : ℝ) < (1 - 1 / 1000000 : ℝ) ^ 5 := by norm_num
  have hMpos : 0 < M := by
    by_contra hM
    push_neg at hM
    have : M * (1 + u) ^ 5 ≤ 0 := mul_nonpos_of_nonpos_of_nonneg hM hq5pos.le
    have : (0 : ℝ) < (1 - 1 / 1000000 : ℝ) ^ 4 := by norm_num
    linarith
  have hlo : (1 - 1 / 100000 : ℝ) ^ 2 ≤ M := by
    have a1 : M * (1 + u) ^ 5 ≤ M * (1 + 1 / 1000000 : ℝ) ^ 5 :=
      mul_le_mul_of_nonneg_left hq5 hMpos.le
    have a2 : (1 - 1 / 1000000 : ℝ) ^ 4 ≤ M * (1 + 1 / 1000000 : ℝ) ^ 5 := by linarith
    have a3 : (1 - 1 / 100000 : ℝ) ^ 2 * (1 + 1 / 1000000 : ℝ) ^ 5 ≤
        (1 - 1 / 1000000 : ℝ) ^ 4 := by norm_num
    have a4 : (0 : ℝ) < (1 + 1 / 1000000 : ℝ) ^ 5 := by norm_num
    exact le_of_mul_le_mul_right (le_trans a3 a2) a4
  have hhi : M ≤ (1 + 1 / 100000 : ℝ) ^ 2 := by
    have a1 : M * (1 - 1 / 1000000 : ℝ) ^ 5 ≤ M * (1 - u) ^ 5 :=
      mul_le_mul_of_nonneg_left hp5 hMpos.le
    have a2 : M * (1 - 1 / 1000000 : ℝ) ^ 5 ≤ (1 + 1 / 1000000 : ℝ) ^ 4 := by linarith
    have a3 : (1 + 1 / 1000000 : ℝ) ^ 4 ≤
        (1 + 1 / 100000 : ℝ) ^ 2 * (1 - 1 / 1000000 : ℝ) ^ 5 := by norm_num
    exact le_of_mul_le_mul_right (le_trans a2 a3) hp5pos
  rw [abs_le]
  constructor
  · have : (1 - 1 / 100000 : ℝ) ≤ Real.sqrt M :=
      (Real.le_sqrt (by norm_num) hMpos.le).2 hlo
    linarith
  · have : Real.sqrt M ≤ (1 + 1 / 100000 : ℝ) :=
      (Real.sqrt_le_left (by norm_num)).2 hhi
    linarith

theorem magnitude_exact (M : ℝ) (h1 : (1 - 0 : ℝ) ^ 4 ≤ M * (1 + 0) ^ 5)
    (h2 : M * (1 - 0 : ℝ) ^ 5 ≤ (1 + 0) ^ 4) : Real.sqrt M = 1 := by
  have : M = 1 := by
    norm_num at h1 h2
    linarith
  rw [this, Real.sqrt_one]

theorem Scalar.real_add {fl : ℝ → ℝ} (a b : ℝ) :
    (Scalar.real a + Scalar.real b : Scalar fl) = Scalar.real (fl (a + b)) := rfl

theorem Scalar.real_sub {fl : ℝ → ℝ} (a b : ℝ) :
    (Scalar.real a - Scalar.real b : Scalar fl) = Scalar.real (fl (a - b)) := rfl

theorem Scalar.real_mul {fl : ℝ → ℝ} (a b : ℝ) :
    (Scalar.real a * Scalar.real b : Scalar fl) = Scalar.real (fl (a * b)) := rfl

theorem Scalar.zero_eq_real {fl : ℝ → ℝ} : (0 : Scalar fl) = Scalar.real 0 := rfl

theorem Scalar.nan_add {fl : ℝ → ℝ} (a : Scalar fl) : Scalar.nan + a = Scalar.nan := rfl

theorem Scalar.add_nan {fl : ℝ → ℝ} (a : Scalar fl) : a + Scalar.nan = Scalar.nan := by
  cases a <;> rfl

theorem Scalar.nan_mul {fl : ℝ → ℝ} (a : Scalar fl) : Scalar.nan * a = Scalar.nan := rfl

theorem Scalar.mul_nan {fl : ℝ → ℝ} (a : Scalar fl) : a * Scalar.nan = Scalar.nan := by
  cases a <;> rfl

theorem lift_zero {fl : ℝ → ℝ} :
    (0 : vec3 (Scalar fl)) = vec3.map Scalar.real (0 : vec3 ℝ) := rfl

theorem lift_add {fl : ℝ → ℝ} (a b : vec3 ℝ) :
    (vec3.map Scalar.real a + vec3.map Scalar.real b : vec3 (Scalar fl)) =
      vec3.map Scalar.real ⟨fl (a.x + b.x), fl (a.y + b.y), fl (a.z + b.z)⟩ := rfl

theorem lift_sub {fl : ℝ → ℝ} (a b : vec3 ℝ) :
    (vec3.map Scalar.real a - vec3.map Scalar.real b : vec3 (Scalar fl)) =
      vec3.map Scalar.real ⟨fl (a.x - b.x), fl (a.y - b.y), fl (a.z - b.z)⟩ := rfl

theorem lift_cross {fl : ℝ → ℝ} (a b : vec3 ℝ) :
    (glm.cross (vec3.map Scalar.real a) (vec3.map Scalar.real b) : vec3 (Scalar fl)) =
      vec3.map Scalar.real
        ⟨fl (fl (a.y * b.z) - fl (b.y * a.z)), fl (fl (a.z * b.x) - fl (b.z * a.x)),
          fl (fl (a.x * b.y) - fl (b.x * a.y))⟩ := rfl

theorem lift_injective {fl : ℝ → ℝ} (a b : vec3 ℝ)
    (h : (vec3.map Scalar.real a : vec3 (Scalar fl)) = vec3.map Scalar.real b) : a = b := by
  rcases a with ⟨ax, ay, az⟩
  rcases b with ⟨bx, b_y, bz⟩
  simp only [vec3.map, vec3.mk.injEq, Scalar.real.injEq] at h
  obtain ⟨h1, h2, h3⟩ := h
  rw [h1, h2, h3]

theorem getD_lift {fl : ℝ → ℝ} (V : List (vec3 ℝ)) (i : Nat) :
    (V.map (vec3.map (Scalar.real : ℝ → Scalar fl))).getD i 0 =
      vec3.map Scalar.real (V.getD i 0) := by
  rw [lift_zero, List.getD_map]

theorem edgeCross_lift {fl : ℝ → ℝ} (V : List (vec3 ℝ)) (t : Nat × Nat × Nat) :
    ∃ w : vec3 ℝ, edgeCross (V.map (vec3.map (Scalar.real : ℝ → Scalar fl))) t =
      vec3.map Scalar.real w := by
  unfold edgeCross
  simp only [getD_lift, lift_sub, lift_cross]
  exact ⟨_, rfl⟩

theorem foldl_add_lift {fl : ℝ → ℝ} (C : List (vec3 (Scalar fl))) (s0 : vec3 ℝ)
    (hC : ∀ c ∈ C, ∃ w : vec3 ℝ, c = vec3.map Scalar.real w) :
    ∃ s : vec3 ℝ, C.foldl (fun s fn => s + fn) (vec3.map Scalar.real s0) =
      vec3.map Scalar.real s := by
  induction C generalizing s0 with
  | nil => exact ⟨s0, rfl⟩
  | cons c C ih =>
    obtain ⟨w, rfl⟩ := hC c (List.mem_cons_self _ _)
    rw [List.foldl_cons, lift_add]
    exact ih _ (fun c' hc' => hC c' (List.mem_cons_of_mem _ hc'))

theorem normalize_lift {fl : ℝ → ℝ} (u : ℝ) (hu0 : 0 ≤ u) (hu1 : u < 1)
    (hfl : ∀ x, |fl x - x| ≤ u * |x|) (s : vec3 ℝ) (hs : s ≠ 0) :
    ∃ nv : vec3 ℝ,
      glm.normalize (Scalar.inversesqrt (fun r => decide (0 < r)) Real.sqrt (fun r => 1 / r))
        (vec3.map Scalar.real s : vec3 (Scalar fl)) = vec3.map Scalar.real nv
      ∧ ∀ e : ℝ, 0 ≤ e → e < 1 → (∀ x, |fl x - x| ≤ e * |x|) →
          (1 - e) ^ 4 ≤ glm.dot nv nv * (1 + e) ^ 5 ∧
          glm.dot nv nv * (1 - e) ^ 5 ≤ (1 + e) ^ 4 := by
  have hd : 0 < s.x * s.x + s.y * s.y + s.z * s.z := dot_self_pos s hs
  obtain ⟨hDpos, _, _⟩ := rounded_normalize_bounds fl u hu0 hu1 hfl s.x s.y s.z _ _ hd rfl rfl
  refine ⟨⟨fl (s.x * fl (1 / fl (Real.sqrt
      (fl (fl (fl (s.x * s.x) + fl (s.y * s.y)) + fl (s.z * s.z)))))),
    fl (s.y * fl (1 / fl (Real.sqrt
      (fl (fl (fl (s.x * s.x) + fl (s.y * s.y)) + fl (s.z * s.z)))))),
    fl (s.z * fl (1 / fl (Real.sqrt
      (fl (fl (fl (s.x * s.x) + fl (s.y * s.y)) + fl (s.z * s.z))))))⟩, ?_, ?_⟩
  · simp only [glm.normalize, glm.dot, vec3.scale, vec3.map, Scalar.real_mul, Scalar.real_add,
      Scalar.inversesqrt, hDpos, decide_True, if_true]
  · intro e he0 he1 hfle
    obtain ⟨_, h1, h2⟩ :=
      rounded_normalize_bounds fl e he0 he1 hfle s.x s.y s.z _ _ hd rfl rfl
    exact ⟨h1, h2⟩

theorem contributions_lift {fl : ℝ → ℝ} (u : ℝ) (hu0 : 0 ≤ u) (hu1 : u < 1)
    (hfl : ∀ x, |fl x - x| ≤ u * |x|) (V : List (vec3 ℝ)) (indices : List Nat) (v : Nat)
    (hnondeg : ∀ t ∈ (triangles indices).filter
        (inRange (V.map (vec3.map (Scalar.real : ℝ → Scalar fl))).length),
      touches t v = true →
        edgeCross (V.map (vec3.map (Scalar.real : ℝ → Scalar fl))) t ≠ 0) :
    ∀ c ∈ contributions
        (Scalar.inversesqrt (fun r => decide (0 < r)) Real.sqrt (fun r => 1 / r))
        (V.map (vec3.map (Scalar.real : ℝ → Scalar fl))) indices v,
      ∃ w : vec3 ℝ, c = vec3.map Scalar.real w := by
  intro c hc
  obtain ⟨t, ht, hv, rfl⟩ := (mem_contributions _ _ indices v c).1 hc
  obtain ⟨w, hw⟩ := @edgeCross_lift fl V t
  have hne := hnondeg t ht hv
  rw [hw] at hne
  have hw0 : w ≠ 0 := by
    intro h0
    apply hne
    rw [h0]
    rfl
  obtain ⟨nv, hnv, _⟩ := normalize_lift u hu0 hu1 hfl w hw0
  exact ⟨nv, by rw [faceNormal, hw, hnv]⟩

theorem vertexNormal_lift {fl : ℝ → ℝ} (u : ℝ) (hu0 : 0 ≤ u) (hu1 : u < 1)
    (hfl : ∀ x, |fl x - x| ≤ u * |x|) (V : List (vec3 ℝ)) (indices : List Nat) (v : Nat)
    (hnondeg : ∀ t ∈ (triangles indices).filter
        (inRange (V.map (vec3.map (Scalar.real : ℝ → Scalar fl))).length),
      touches t v = true →
        edgeCross (V.map (vec3.map (Scalar.real : ℝ → Scalar fl))) t ≠ 0)
    (hsum : accumulated
        (Scalar.inversesqrt (fun r => decide (0 < r)) Real.sqrt (fun r => 1 / r))
        (V.map (vec3.map (Scalar.real : ℝ → Scalar fl))) indices v ≠ 0) :
    ∃ nv : vec3 ℝ,
      vertexNormal (Scalar.inversesqrt (fun r => decide (0 < r)) Real.sqrt (fun r => 1 / r))
        (V.map (vec3.map (Scalar.real : ℝ → Scalar fl))) indices v = vec3.map Scalar.real nv
      ∧ ∀ e : ℝ, 0 ≤ e → e < 1 → (∀ x, |fl x - x| ≤ e * |x|) →
          (1 - e) ^ 4 ≤ glm.dot nv nv * (1 + e) ^ 5 ∧
          glm.dot nv nv * (1 - e) ^ 5 ≤ (1 + e) ^ 4 := by
  obtain ⟨s, hs⟩ := foldl_add_lift _ 0 (contributions_lift u hu0 hu1 hfl V indices v hnondeg)
  have hacc : accumulated
      (Scalar.inversesqrt (fun r => decide (0 < r)) Real.sqrt (fun r => 1 / r))
      (V.map (vec3.map (Scalar.real : ℝ → Scalar fl))) indices v = vec3.map Scalar.real s := by
    unfold accumulated
    rw [lift_zero]
    exact hs
  have hs0 : s ≠ 0 := by
    intro h0
    apply hsum
    rw [hacc, h0]
    rfl
  obtain ⟨nv, hnv, hb⟩ := normalize_lift u hu0 hu1 hfl s hs0
  exact ⟨nv, by rw [vertexNormal, hacc, hnv], hb⟩

/-! ## Rounded arithmetic with NaN: claims -/

/-- C8, amended: take a mesh with real vertex coordinates and a vertex `v`
that is an index of at least one non-degenerate triangle, such that no
complete in-range triangle with `v` among its indices has a zero edge cross
product and the sum of face normals accumulated for `v` is not the zero
vector.  Then the normal stored for `v` by `calculateNormals` is a vector of
real numbers of magnitude 1: within 1e-5 when every operation is rounded with
a relative error of at most 1e-6 (`float` rounds with `2^-24`), and exactly 1
in real arithmetic, where nothing is rounded. -/
theorem C8_unit_normal_of_nonzero_sum (fl : ℝ → ℝ) (u : ℝ) (hu0 : 0 ≤ u)
    (hu : u ≤ 1 / 1000000) (hfl : ∀ x, |fl x - x| ≤ u * |x|) (mesh : ofMesh ℝ) (v : Nat)
    (htouch : touchesNonDegenerate (mesh.map (Scalar.real : ℝ → Scalar fl)).vertices
      (mesh.map (Scalar.real : ℝ → Scalar fl)).indices v)
    (hnondeg : ∀ t ∈ (triangles (mesh.map (Scalar.real : ℝ → Scalar fl)).indices).filter
        (inRange (mesh.map (Scalar.real : ℝ → Scalar fl)).vertices.length),
      touches t v = true →
        edgeCross (mesh.map (Scalar.real : ℝ → Scalar fl)).vertices t ≠ 0)
    (hsum : accumulated
        (Scalar.inversesqrt (fun r => decide (0 < r)) Real.sqrt (fun r => 1 / r))
        (mesh.map (Scalar.real : ℝ → Scalar fl)).vertices
        (mesh.map (Scalar.real : ℝ → Scalar fl)).indices v ≠ 0) :
    ∃ result nv,
      calculateNormals
        (Scalar.inversesqrt (fun r => decide (0 < r)) Real.sqrt (fun r => 1 / r))
        (mesh.map (Scalar.real : ℝ → Scalar fl)) = some result
      ∧ result.normals[v]? = some (vec3.map Scalar.real nv)
      ∧ |Real.sqrt (glm.dot nv nv) - 1| ≤ 1 / 100000
      ∧ ((∀ x, fl x = x) → unitLength nv) := by
  have hu1 : u < 1 := by linarith
  obtain ⟨nv, hnv, hb⟩ := vertexNormal_lift u hu0 hu1 hfl mesh.vertices mesh.indices v
    hnondeg hsum
  obtain ⟨t, htm, hv, _⟩ := htouch
  have hlt : v < (mesh.map (Scalar.real : ℝ → Scalar fl)).vertices.length :=
    lt_length_of_touches _ t v (List.mem_filter.1 htm).2 hv
  refine ⟨_, nv, calculateNormals_eq _ _, ?_, ?_, ?_⟩
  · simp only [List.getElem?_map, List.getElem?_range hlt, Option.map_some']
    exact congrArg some hnv
  · exact magnitude_within_tolerance u _ hu0 hu (hb u hu0 hu1 hfl).1 (hb u hu0 hu1 hfl).2
  · intro hid
    have h0 := hb 0 le_rfl (by norm_num) (fun x => by simp [hid x])
    exact magnitude_exact _ h0.1 h0.2

theorem normalize_unit_z :
    glm.normalize (Scalar.inversesqrt (fun r => decide (0 < r)) Real.sqrt (fun r => 1 / r))
      (⟨Scalar.real 0, Scalar.real 0, Scalar.real 1⟩ : vec3 (Scalar (fun x => x))) =
      ⟨Scalar.real 0, Scalar.real 0, Scalar.real 1⟩ := by
  simp [glm.normalize, glm.dot, vec3.scale, Scalar.real_mul, Scalar.real_add,
    Scalar.inversesqrt]

theorem normalize_minus_unit_z :
    glm.normalize (Scalar.inversesqrt (fun r => decide (0 < r)) Real.sqrt (fun r => 1 / r))
      (⟨Scalar.real 0, Scalar.real 0, Scalar.real (-1)⟩ : vec3 (Scalar (fun x => x))) =
      ⟨Scalar.real 0, Scalar.real 0, Scalar.real (-1)⟩ := by
  simp [glm.normalize, glm.dot, vec3.scale, Scalar.real_mul, Scalar.real_add,
    Scalar.inversesqrt]

theorem normalize_zero_nan :
    glm.normalize (Scalar.inversesqrt (fun r => decide (0 < r)) Real.sqrt (fun r => 1 / r))
      (⟨Scalar.real 0, Scalar.real 0, Scalar.real 0⟩ : vec3 (Scalar (fun x => x))) =
      ⟨Scalar.nan, Scalar.nan, Scalar.nan⟩ := by
  simp [glm.normalize, glm.dot, vec3.scale, Scalar.real_mul, Scalar.real_add,
    Scalar.inversesqrt, Scalar.mul_nan]

theorem normalize_nan_nan :
    glm.normalize (Scalar.inversesqrt (fun r => decide (0 < r)) Real.sqrt (fun r => 1 / r))
      (⟨Scalar.nan, Scalar.nan, Scalar.nan⟩ : vec3 (Scalar (fun x => x))) =
      ⟨Scalar.nan, Scalar.nan, Scalar.nan⟩ := by
  simp [glm.normalize, glm.dot, vec3.scale, Scalar.nan_mul, Scalar.nan_add,
    Scalar.inversesqrt]

theorem cancellingMesh_triangles :
    (triangles (cancellingMesh.map (Scalar.real : ℝ → Scalar (fun x => x))).indices).filter
      (inRange (cancellingMesh.map (Scalar.real : ℝ → Scalar (fun x => x))).vertices.length) =
      [(0, 1, 2), (0, 2, 1)] := by
  simp [cancellingMesh, ofMesh.map, triangles, inRange]

theorem cancellingMesh_edgeCross :
    edgeCross (cancellingMesh.map (Scalar.real : ℝ → Scalar (fun x => x))).vertices (0, 1, 2) =
      ⟨Scalar.real 0, Scalar.real 0, Scalar.real 1⟩ ∧
    edgeCross (cancellingMesh.map (Scalar.real : ℝ → Scalar (fun x => x))).vertices (0, 2, 1) =
      ⟨Scalar.real 0, Scalar.real 0, Scalar.real (-1)⟩ := by
  constructor <;>
    simp [edgeCross, cancellingMesh, ofMesh.map, vec3.map, glm.cross, vec3.sub_def,
      Scalar.real_sub, Scalar.real_mul]

theorem cancellingMesh_vertexNormal :
    vertexNormal (Scalar.inversesqrt (fun r => decide (0 < r)) Real.sqrt (fun r => 1 / r))
      (cancellingMesh.map (Scalar.real : ℝ → Scalar (fun x => x))).vertices
      (cancellingMesh.map (Scalar.real : ℝ → Scalar (fun x => x))).indices 0 =
      ⟨Scalar.nan, Scalar.nan, Scalar.nan⟩ := by
  unfold vertexNormal accumulated contributions
  rw [cancellingMesh_triangles]
  simp only [List.flatMap_cons, List.flatMap_nil, triangleContribution, faceNormal,
    cancellingMesh_edgeCross.1, cancellingMesh_edgeCross.2, normalize_unit_z,
    normalize_minus_unit_z, if_true, List.append_nil, List.nil_append,
    List.foldl_cons, List.foldl_nil, List.cons_append, OfNat.zero_ne_ofNat, OfNat.ofNat_ne_zero,
    if_false, Nat.succ_ne_zero, one_ne_zero, reduceCtorEq]
  simp only [vec3.add_def, vec3.zero_def, Scalar.zero_eq_real, Scalar.real_add, add_zero,
    zero_add, add_neg_cancel, normalize_zero_nan]

theorem degenerateNeighbourMesh_triangles :
    (triangles
        (degenerateNeighbourMesh.map (Scalar.real : ℝ → Scalar (fun x => x))).indices).filter
      (inRange
        (degenerateNeighbourMesh.map (Scalar.real : ℝ → Scalar (fun x => x))).vertices.length) =
      [(0, 1, 2), (0, 1, 3)] := by
  simp [degenerateNeighbourMesh, ofMesh.map, triangles, inRange]

theorem degenerateNeighbourMesh_edgeCross :
    edgeCross (degenerateNeighbourMesh.map (Scalar.real : ℝ → Scalar (fun x => x))).vertices
      (0, 1, 2) = ⟨Scalar.real 0, Scalar.real 0, Scalar.real 1⟩ ∧
    edgeCross (degenerateNeighbourMesh.map (Scalar.real : ℝ → Scalar (fun x => x))).vertices
      (0, 1, 3) = ⟨Scalar.real 0, Scalar.real 0, Scalar.real 0⟩ := by
  constructor <;>
    simp [edgeCross, degenerateNeighbourMesh, ofMesh.map, vec3.map, glm.cross, vec3.sub_def,
      Scalar.real_sub, Scalar.real_mul]

theorem degenerateNeighbourMesh_vertexNormal :
    vertexNormal (Scalar.inversesqrt (fun r => decide (0 < r)) Real.sqrt (fun r => 1 / r))
      (degenerateNeighbourMesh.map (Scalar.real : ℝ → Scalar (fun x => x))).vertices
      (degenerateNeighbourMesh.map (Scalar.real : ℝ → Scalar (fun x => x))).indices 0 =
      ⟨Scalar.nan, Scalar.nan, Scalar.nan⟩ := by
  unfold vertexNormal accumulated contributions
  rw [degenerateNeighbourMesh_triangles]
  simp only [List.flatMap_cons, List.flatMap_nil, triangleContribution, faceNormal,
    degenerateNeighbourMesh_edgeCross.1, degenerateNeighbourMesh_edgeCross.2, normalize_unit_z,
    normalize_zero_nan, if_true, List.append_nil, List.nil_append,
    List.foldl_cons, List.foldl_nil, List.cons_append, OfNat.zero_ne_ofNat, OfNat.ofNat_ne_zero,
    if_false, Nat.succ_ne_zero, one_ne_zero, reduceCtorEq]
  simp only [vec3.add_def, vec3.zero_def, Scalar.zero_eq_real, Scalar.real_add, Scalar.add_nan,
    normalize_nan_nan]

theorem nan_not_real {fl : ℝ → ℝ} :
    ¬ ∃ nv : vec3 ℝ,
      (⟨Scalar.nan, Scalar.nan, Scalar.nan⟩ : vec3 (Scalar fl)) = vec3.map Scalar.real nv := by
  rintro ⟨nv, h⟩
  simp [vec3.map] at h

/-- C8, as stated, fails, in two ways.  In `cancellingMesh` vertex 0 is an
index of the non-degenerate triangle `(0,1,2)`, with edge cross product
`(0,0,1)`, but the second triangle `(0,2,1)` contributes the opposite face
normal: the sum for vertex 0 is the zero vector and its normalization is
`0 * (1/sqrt(0))`, NaN in each component.  In `degenerateNeighbourMesh` vertex 0
is an index of the same non-degenerate triangle and of the zero-area triangle
`(0,1,3)`, whose face normal is NaN in each component, and so are the sum and
the stored normal.  A NaN vector is no vector of real numbers and has no
magnitude 1. -/
theorem C8_counterexample :
    (touchesNonDegenerate
        (cancellingMesh.map (Scalar.real : ℝ → Scalar (fun x => x))).vertices
        (cancellingMesh.map (Scalar.real : ℝ → Scalar (fun x => x))).indices 0
      ∧ ∃ result,
          calculateNormals
            (Scalar.inversesqrt (fun r => decide (0 < r)) Real.sqrt (fun r => 1 / r))
            (cancellingMesh.map (Scalar.real : ℝ → Scalar (fun x => x))) = some result
          ∧ result.normals[0]? = some ⟨Scalar.nan, Scalar.nan, Scalar.nan⟩)
    ∧ (touchesNonDegenerate
        (degenerateNeighbourMesh.map (Scalar.real : ℝ → Scalar (fun x => x))).vertices
        (degenerateNeighbourMesh.map (Scalar.real : ℝ → Scalar (fun x => x))).indices 0
      ∧ ∃ result,
          calculateNormals
            (Scalar.inversesqrt (fun r => decide (0 < r)) Real.sqrt (fun r => 1 / r))
            (degenerateNeighbourMesh.map (Scalar.real : ℝ → Scalar (fun x => x))) = some result
          ∧ result.normals[0]? = some ⟨Scalar.nan, Scalar.nan, Scalar.nan⟩)
    ∧ ¬ ∃ nv : vec3 ℝ,
        (⟨Scalar.nan, Scalar.nan, Scalar.nan⟩ : vec3 (Scalar (fun x => x))) =
          vec3.map Scalar.real nv := by
  refine ⟨⟨?_, ?_⟩, ⟨?_, ?_⟩, nan_not_real⟩
  · refine ⟨(0, 1, 2), ?_, by decide, ?_⟩
    · rw [cancellingMesh_triangles]; simp
    · rw [cancellingMesh_edgeCross.1]
      simp [vec3.zero_def, Scalar.zero_eq_real]
  · refine ⟨_, calculateNormals_eq _ _, ?_⟩
    have hlen : (cancellingMesh.map
        (Scalar.real : ℝ → Scalar (fun x => x))).vertices.length = 3 := by
      simp [cancellingMesh, ofMesh.map]
    have hlt : 0 < (cancellingMesh.map
        (Scalar.real : ℝ → Scalar (fun x => x))).vertices.length := by omega
    simp only [List.getElem?_map, List.getElem?_range hlt, Option.map_some']
    exact congrArg some cancellingMesh_vertexNormal
  · refine ⟨(0, 1, 2), ?_, by decide, ?_⟩
    · rw [degenerateNeighbourMesh_triangles]; simp
    · rw [degenerateNeighbourMesh_edgeCross.1]
      simp [vec3.zero_def, Scalar.zero_eq_real]
  · refine ⟨_, calculateNormals_eq _ _, ?_⟩
    have hlen : (degenerateNeighbourMesh.map
        (Scalar.real : ℝ → Scalar (fun x => x))).vertices.length = 4 := by
      simp [degenerateNeighbourMesh, ofMesh.map]
    have hlt : 0 < (degenerateNeighbourMesh.map
        (Scalar.real : ℝ → Scalar (fun x => x))).vertices.length := by omega
    simp only [List.getElem?_map, List.getElem?_range hlt, Option.map_some']
    exact congrArg some degenerateNeighbourMesh_vertexNormal

theorem singleTriangleMesh_triangles :
    (triangles
        (singleTriangleMesh.map (Scalar.real : ℝ → Scalar (fun x => x))).indices).filter
      (inRange
        (singleTriangleMesh.map (Scalar.real : ℝ → Scalar (fun x => x))).vertices.length) =
      [(0, 1, 2)] := by
  simp [singleTriangleMesh, ofMesh.map, triangles, inRange]

theorem singleTriangleMesh_edgeCross :
    edgeCross (singleTriangleMesh.map (Scalar.real : ℝ → Scalar (fun x => x))).vertices
      (0, 1, 2) = ⟨Scalar.real 0, Scalar.real 0, Scalar.real 1⟩ := by
  simp [edgeCross, singleTriangleMesh, ofMesh.map, vec3.map, glm.cross, vec3.sub_def,
    Scalar.real_sub, Scalar.real_mul]

theorem singleTriangleMesh_accumulated :
    accumulated (Scalar.inversesqrt (fun r => decide (0 < r)) Real.sqrt (fun r => 1 / r))
      (singleTriangleMesh.map (Scalar.real : ℝ → Scalar (fun x => x))).vertices
      (singleTriangleMesh.map (Scalar.real : ℝ → Scalar (fun x => x))).indices 0 =
      ⟨Scalar.real 0, Scalar.real 0, Scalar.real 1⟩ := by
  unfold accumulated contributions
  rw [singleTriangleMesh_triangles]
  simp only [List.flatMap_cons, List.flatMap_nil, triangleContribution, faceNormal,
    singleTriangleMesh_edgeCross, normalize_unit_z, if_true, List.append_nil, List.nil_append,
    List.foldl_cons, List.foldl_nil, List.cons_append, OfNat.zero_ne_ofNat, OfNat.ofNat_ne_zero,
    if_false, Nat.succ_ne_zero, one_ne_zero, reduceCtorEq]
  simp only [vec3.add_def, vec3.zero_def, Scalar.zero_eq_real, Scalar.real_add, add_zero,
    zero_add]

/-- Witness for the amended C8: `singleTriangleMesh` in real arithmetic (nothing
is rounded, `u = 0`).  Vertex 0 lies on the one triangle, whose edge cross
product and face normal are `(0,0,1)`; the stored normal is a real vector of
magnitude 1. -/
theorem C8_unit_normal_of_nonzero_sum_witness :
    ∃ result nv,
      calculateNormals
        (Scalar.inversesqrt (fun r => decide (0 < r)) Real.sqrt (fun r => 1 / r))
        (singleTriangleMesh.map (Scalar.real : ℝ → Scalar (fun x => x))) = some result
      ∧ result.normals[0]? = some (vec3.map Scalar.real nv)
      ∧ |Real.sqrt (glm.dot nv nv) - 1| ≤ 1 / 100000
      ∧ ((∀ x : ℝ, (fun x => x) x = x) → unitLength nv) :=
  C8_unit_normal_of_nonzero_sum (fun x => x) 0 le_rfl (by norm_num) (fun x => by simp)
    singleTriangleMesh 0
    ⟨(0, 1, 2), by rw [singleTriangleMesh_triangles]; simp, by decide, by
      rw [singleTriangleMesh_edgeCross]; simp [vec3.zero_def, Scalar.zero_eq_real]⟩
    (by
      rw [singleTriangleMesh_triangles]
      intro t ht _
      rw [List.mem_singleton] at ht
      rw [ht, singleTriangleMesh_edgeCross]
      simp [vec3.zero_def, Scalar.zero_eq_real])
    (by
      rw [singleTriangleMesh_accumulated]
      simp [vec3.zero_def, Scalar.zero_eq_real])
